import Mathlib

/-! Verification of `token.go` (package `token`)

A shallow embedding of the loopback token exchanger.  Go strings are Lean
strings and the Go `error` interface is `Option GoError` (`none` is `nil`).
`TokenExchange` runs several goroutines: the caller, blocked in
`ListenAndServe` and then executing lines 84-88, one goroutine per accepted
request, and the shutdown goroutines started by the callback.  The model is a
step function on the shared state; a schedule lists which goroutine takes
its next atomic step, and the observable steps are recorded in an event log.
-/

namespace token

/-! ## Go values used by the package -/

/-- Non-nil values of the Go `error` interface.  `ErrServerClosed` is the
sentinel `http.ErrServerClosed`; every other error value is identified by
an identity tag (Go compares interface values, not texts) and carries the
text returned by its `Error()` method. -/
inductive GoError where
  | ErrServerClosed : GoError
  | custom (ident : Nat) (text : String) : GoError
  deriving DecidableEq, Repr

/-- The `Error()` method. -/
def GoError.Error : GoError → String
  | GoError.ErrServerClosed => "http: Server closed"
  | GoError.custom _ text => text

/-- The Go `error` interface type: `none` is `nil`. -/
abbrev Error := Option GoError

/-- The data fields of `oauth2.Token`; `Expiry` is a time stamp, zero when
unset. -/
structure Token where
  AccessToken : String
  TokenType : String
  RefreshToken : String
  Expiry : Int
  deriving DecidableEq, Repr

/-- The zero value of `oauth2.Token`, the value of `var t oauth2.Token`. -/
def Token.zero : Token := ⟨"", "", "", 0⟩

/-- The fields of `*http.Request` that routing reads: `r.Method`, the request
target `r.RequestURI` as sent by the client, and `r.URL.Path`. -/
structure Request where
  Method : String
  RequestURI : String
  Path : String
  deriving DecidableEq, Repr

/-- What is written to an `http.ResponseWriter`: status code and body. -/
structure Response where
  status : Nat
  body : String
  deriving DecidableEq, Repr

/-- The type `AuthCodeRequestHandler`; the handler is a function that returns
(a nil handler is outside the model). -/
abbrev AuthCodeRequestHandler := Request → Token × Error

/-- The struct `OauthTokenExchanger`. -/
structure OauthTokenExchanger where
  AuthServerRequestURL : String
  Handler : AuthCodeRequestHandler
  ListenerPort : Int
  ListenerPath : String

/-- The constant `defaultListenerPort`. -/
def defaultListenerPort : Int := 3000

/-- The constant `defaultListenerPath`. -/
def defaultListenerPath : String := "/callback"

/-- The function `GetDefaultCallbackURL`:
`fmt.Sprintf("http://localhost:%d%s", defaultListenerPort, defaultListenerPath)`. -/
def GetDefaultCallbackURL : String :=
  "http://localhost:" ++ toString defaultListenerPort ++ defaultListenerPath

/-- The constructor `NewOauthTokenExchanger`. -/
def NewOauthTokenExchanger (authServerRequestURL : String)
    (handler : AuthCodeRequestHandler) : OauthTokenExchanger :=
  { AuthServerRequestURL := authServerRequestURL
    Handler := handler
    ListenerPort := defaultListenerPort
    ListenerPath := defaultListenerPath }

/-! ## Library functions called by `TokenExchange` -/

/-- The function `strings.TrimLeft` on the characters of a string. -/
def trimLeftChars (s cutset : List Char) : List Char :=
  s.dropWhile (fun c => cutset.contains c)

/-- The function `strings.TrimRight` on the characters of a string. -/
def trimRightChars (s cutset : List Char) : List Char :=
  ((s.reverse).dropWhile (fun c => cutset.contains c)).reverse

/-- The function `strings.Trim(s, cutset)`: `s` with all leading and trailing
characters contained in `cutset` removed. -/
def Trim (s cutset : String) : String :=
  ⟨trimLeftChars (trimRightChars s.data cutset.data) cutset.data⟩

/-- The reply of `http.Error(w, error, code)`: the status code and the text
followed by a newline (`fmt.Fprintln`). -/
def httpError (error : String) (code : Nat) : Response :=
  ⟨code, error ++ "\n"⟩

/-- The segments of a path between its slashes. -/
def splitSlash : List Char → List (List Char)
  | [] => [[]]
  | c :: cs =>
    if c = '/' then [] :: splitSlash cs
    else match splitSlash cs with
      | [] => [[c]]
      | seg :: rest => (c :: seg) :: rest

/-- The element stack of `path.Clean` on a rooted path: empty and `.`
elements are dropped, `..` removes the element before it (at the root it is
dropped). -/
def cleanSegments (stack : List (List Char)) : List (List Char) → List (List Char)
  | [] => stack
  | seg :: rest =>
    if seg = [] ∨ seg = ['.'] then cleanSegments stack rest
    else if seg = ['.', '.'] then cleanSegments stack.dropLast rest
    else cleanSegments (stack ++ [seg]) rest

/-- The function `path.Clean` on a rooted path (one that starts with a slash). -/
def pathClean (p : List Char) : List Char :=
  '/' :: List.intercalate ['/'] (cleanSegments [] (splitSlash p))

/-- The function `cleanPath` of `net/http`: the canonical form of a request
path. -/
def cleanPath (p : String) : String :=
  if p = "" then "/"
  else
    let p1 : List Char := if p.data.head? = some '/' then p.data else '/' :: p.data
    let np := pathClean p1
    -- path.Clean removes the trailing slash except for the root; put it back
    if p1.getLast? = some '/' ∧ np ≠ ['/'] then ⟨np ++ ['/']⟩ else ⟨np⟩

/-- A `*http.ServeMux`: the patterns registered on it.  Patterns are literal:
a fixed rooted path or, when ending in a slash, a rooted subtree.  Every
pattern the package registers starts with a slash and is served by the
callback `cb`, so host-qualified entries are absent. -/
structure ServeMux where
  patterns : List String

/-- The empty mux of `http.NewServeMux()`. -/
def NewServeMux : ServeMux := ⟨[]⟩

/-- The registration `mux.HandleFunc(pattern, cb)`. -/
def ServeMux.HandleFunc (mux : ServeMux) (pattern : String) : ServeMux :=
  ⟨mux.patterns ++ [pattern]⟩

/-- The handler the mux selects for a request. -/
inductive Route where
  | registered (pattern : String) : Route
  | NotFoundHandler : Route
  | RedirectHandler (url : String) : Route
  deriving DecidableEq, Repr

/-- Whether a pattern names a subtree (ends in a slash) that contains `path`. -/
def subtreeMatch (path pattern : String) : Bool :=
  pattern.data.getLast? = some '/' && pattern.data.isPrefixOf path.data

/-- The lookup `mux.match(path)`: an exact match first, else the longest
subtree pattern that is a prefix of the path. -/
def ServeMux.matchPattern (mux : ServeMux) (path : String) : Option String :=
  if path ∈ mux.patterns then some path
  else
    (mux.patterns.filter (subtreeMatch path)).foldl
      (fun best e =>
        match best with
        | none => some e
        | some b => if b.length < e.length then some e else some b)
      none

/-- The lookup `mux.handler(host, path)` without host-qualified patterns. -/
def ServeMux.handler (mux : ServeMux) (path : String) : Route :=
  match mux.matchPattern path with
  | some pattern => Route.registered pattern
  | none => Route.NotFoundHandler

/-- The test `mux.shouldRedirectRLocked(host, path)`: `path` is not registered
but `path + "/"` is. -/
def ServeMux.shouldRedirect (mux : ServeMux) (path : String) : Bool :=
  if path ∈ mux.patterns then false
  else if path = "" then false
  else if (path ++ "/") ∈ mux.patterns then path.data.getLast? != some '/'
  else false

/-- The dispatch `mux.Handler(r)`: `CONNECT` requests are matched as they are;
every other request is matched on its canonical path and redirected to it
when its path is not canonical. -/
def ServeMux.Handler (mux : ServeMux) (r : Request) : Route :=
  if r.Method = "CONNECT" then
    if mux.shouldRedirect r.Path then Route.RedirectHandler (r.Path ++ "/")
    else mux.handler r.Path
  else
    let path := cleanPath r.Path
    if mux.shouldRedirect path then Route.RedirectHandler (path ++ "/")
    else if path ≠ r.Path then Route.RedirectHandler path
    else mux.handler r.Path

/-- The handler the server runs for a request: the callback, a reply made by
the library itself, or a redirect made by the mux. -/
inductive Dispatch where
  | callback : Dispatch
  | reply (resp : Response) : Dispatch
  | redirect (url : String) : Dispatch
  deriving DecidableEq, Repr

/-- The choice of handler in `serverHandler.ServeHTTP` and `mux.ServeHTTP`:
the request target `*` is answered before any lookup, with an empty 200 for
`OPTIONS` (the global options handler) and an empty 400 otherwise; every
other request goes through `mux.Handler`. -/
def dispatch (m : ServeMux) (r : Request) : Dispatch :=
  if r.RequestURI = "*" then
    if r.Method = "OPTIONS" then Dispatch.reply ⟨200, ""⟩ else Dispatch.reply ⟨400, ""⟩
  else
    match m.Handler r with
    | Route.registered _ => Dispatch.callback
    | Route.NotFoundHandler => Dispatch.reply (httpError "404 page not found" 404)
    | Route.RedirectHandler url => Dispatch.redirect url

/-- The observable steps of one call of `TokenExchange`. -/
inductive Event where
  /-- the call `browser.OpenURL(url)` returned `result` (line 40) -/
  | openURL (url : String) (result : Error) : Event
  /-- the registration `m.HandleFunc(pattern, cb)` (line 77) -/
  | handleFunc (pattern : String) : Event
  /-- the call of `s.ListenAndServe()` on the server with address `addr` (line 80) -/
  | listen (addr : String) : Event
  /-- the call `o.Handler(r)` (line 55) -/
  | call (r : Request) : Event
  /-- the store of the token through `pT` (line 58) -/
  | storeT (t : Token) : Event
  /-- the store of the error through `pE` (line 59) -/
  | storeE (e : Error) : Event
  /-- a reply with status and body was written for request `r` -/
  | respond (r : Request) (resp : Response) : Event
  /-- the mux answered request `r` with a redirect to `url` -/
  | redirect (r : Request) (url : String) : Event
  /-- a goroutine running `s.Shutdown` was started (lines 69-72) -/
  | goShutdown : Event
  /-- the return of `s.ListenAndServe()` with `serverErr` (line 80) -/
  | served (serverErr : Error) : Event
  /-- the assignment `e = serverErr` (line 85) -/
  | assignE (serverErr : Error) : Event
  /-- the return of `TokenExchange` with `(t, e)` (line 88) -/
  | ret (t : Token) (e : Error) : Event
  deriving DecidableEq, Repr

/-- How far the goroutine serving a request has come: it has not run yet,
the handler was called (line 55), the token was stored (line 58), the error
was stored (line 59), the reply was written (lines 62-66), or it is done
(after starting the shutdown goroutine, lines 69-72, or after a reply of the
library itself). -/
inductive Pc where
  | start : Pc
  | called : Pc
  | storedT : Pc
  | storedE : Pc
  | responded : Pc
  | done : Pc
  deriving DecidableEq, Repr

/-- The position of a `Pc` in program order. -/
def Pc.rank : Pc → Nat
  | Pc.start => 0
  | Pc.called => 1
  | Pc.storedT => 2
  | Pc.storedE => 3
  | Pc.responded => 4
  | Pc.done => 5

/-- The goroutine serving one accepted request. -/
structure Conn where
  r : Request
  pc : Pc
  deriving DecidableEq, Repr

/-- The listener of the server: accepting connections, or closed with the
error that `ListenAndServe` returns. -/
inductive Listener where
  | listening : Listener
  | closed (err : GoError) : Listener
  deriving DecidableEq, Repr

/-- Where the goroutine that called `TokenExchange` is: blocked in
`s.ListenAndServe()` (line 80), before the test of line 84 with `serverErr`,
before the assignment of line 85, before reading `t` for the return of line
88, before reading `e` for it with the token read, or returned.  The read of
`t` is taken as one step. -/
inductive MainPc where
  | serving : MainPc
  | check (serverErr : GoError) : MainPc
  | assign (serverErr : GoError) : MainPc
  | readT : MainPc
  | readE (t : Token) : MainPc
  | finished (t : Token) (e : Error) : MainPc
  deriving DecidableEq, Repr

/-- The state shared by the goroutines of one call of `TokenExchange`: the
variables `t` and `e` (reached by the callback through `pT` and `pE`), the
goroutines serving requests in the order the requests were read, the number of
started shutdown goroutines that have not run yet, the listener, and the
position of the caller. -/
structure ServerState where
  t : Token
  e : Error
  conns : List Conn
  pending : Nat
  listener : Listener
  main : MainPc

/-- One atomic step of a run: the server reads a request, from a new
connection or from one it keeps open, and starts serving it; the goroutine
of the `i`-th such request takes its next step; a started shutdown goroutine
runs `s.Shutdown`; the listener fails by itself with an error of the network
layer (it cannot bind, or accepting fails); or the caller of `TokenExchange`
takes its next step. -/
inductive Step where
  | accept (r : Request) : Step
  | conn (i : Nat) : Step
  | shutdown : Step
  | fail (ident : Nat) (text : String) : Step
  | main : Step
  deriving DecidableEq, Repr

/-- What the surroundings contribute to one call of `TokenExchange`: the
result of `browser.OpenURL` and the schedule of the goroutines.  After the
schedule the caller runs on alone. -/
structure World where
  openURL : Error
  schedule : List Step

/-- The state with the goroutine of the `i`-th request, which is `c`, moved
to `pc`. -/
def ServerState.setPc (s : ServerState) (i : Nat) (c : Conn) (pc : Pc) : ServerState :=
  ⟨s.t, s.e, s.conns.set i ⟨c.r, pc⟩, s.pending, s.listener, s.main⟩

/-- The reply `cb` writes to the browser window (lines 62-66). -/
def cbReply (o : OauthTokenExchanger) (r : Request) : Response :=
  match (o.Handler r).2 with
  | some x => httpError ("Error retrieving token: " ++ x.Error) 500
  | none => ⟨200, "Token retrieved successfully! Please close the browser window"⟩

/-- The next atomic step of the closure `cb` (lines 53-73) in the goroutine
`c` of the `i`-th request. -/
def cb (o : OauthTokenExchanger) (s : ServerState) (i : Nat) (c : Conn) :
    ServerState × List Event :=
  match c.pc with
  | Pc.start =>
    -- execute auth code handler
    (s.setPc i c Pc.called, [Event.call c.r])
  | Pc.called =>
    -- assign return values to parent scope via pointers: *pT = token
    (⟨(o.Handler c.r).1, s.e, s.conns.set i ⟨c.r, Pc.storedT⟩, s.pending, s.listener,
      s.main⟩, [Event.storeT (o.Handler c.r).1])
  | Pc.storedT =>
    -- *pE = err
    (⟨s.t, (o.Handler c.r).2, s.conns.set i ⟨c.r, Pc.storedE⟩, s.pending, s.listener,
      s.main⟩, [Event.storeE (o.Handler c.r).2])
  | Pc.storedE =>
    -- write to browser window
    (s.setPc i c Pc.responded, [Event.respond c.r (cbReply o c.r)])
  | Pc.responded =>
    -- shutdown server
    (⟨s.t, s.e, s.conns.set i ⟨c.r, Pc.done⟩, s.pending + 1, s.listener, s.main⟩,
      [Event.goShutdown])
  | Pc.done => (s, [])

/-- The next atomic step of the goroutine of the `i`-th request: the server
hands the request to the callback, or the library answers it in one step. -/
def ServeHTTP (o : OauthTokenExchanger) (m : ServeMux) (s : ServerState) (i : Nat) :
    ServerState × List Event :=
  match s.conns[i]? with
  | none => (s, [])
  | some c =>
    match dispatch m c.r with
    | Dispatch.callback => cb o s i c
    | Dispatch.reply resp =>
      if c.pc = Pc.start then (s.setPc i c Pc.done, [Event.respond c.r resp]) else (s, [])
    | Dispatch.redirect url =>
      if c.pc = Pc.start then (s.setPc i c Pc.done, [Event.redirect c.r url]) else (s, [])

/-- The call `s.ListenAndServe()` (line 80) as seen by its caller: it blocks
while the listener is listening (`none`) and returns the error of the
listener once it is closed, whatever the goroutines serving requests are
doing. -/
def ListenAndServe (s : ServerState) : Option GoError :=
  match s.listener with
  | Listener.listening => none
  | Listener.closed err => some err

/-- The next atomic step of the caller of `TokenExchange` (lines 80-88). -/
def mainStep (s : ServerState) : ServerState × List Event :=
  match s.main with
  | MainPc.serving =>
    -- launch server and listen for callback
    match ListenAndServe s with
    | none => (s, [])
    | some serverErr =>
      (⟨s.t, s.e, s.conns, s.pending, s.listener, MainPc.check serverErr⟩,
        [Event.served (some serverErr)])
  | MainPc.check serverErr =>
    -- if our server generates an error and we do not already have one
    -- from our callback handler, then return our server error instead
    if s.e = none ∧ serverErr ≠ GoError.ErrServerClosed then
      (⟨s.t, s.e, s.conns, s.pending, s.listener, MainPc.assign serverErr⟩, [])
    else (⟨s.t, s.e, s.conns, s.pending, s.listener, MainPc.readT⟩, [])
  | MainPc.assign serverErr =>
    (⟨s.t, some serverErr, s.conns, s.pending, s.listener, MainPc.readT⟩,
      [Event.assignE (some serverErr)])
  | MainPc.readT =>
    (⟨s.t, s.e, s.conns, s.pending, s.listener, MainPc.readE s.t⟩, [])
  | MainPc.readE t =>
    (⟨s.t, s.e, s.conns, s.pending, s.listener, MainPc.finished t s.e⟩,
      [Event.ret t s.e])
  | MainPc.finished _ _ => (s, [])

/-- One atomic step of the run.  `s.Shutdown` closes the listener, which
makes `ListenAndServe` return `http.ErrServerClosed`, and lets the requests
in flight go on; a failure of the listener closes it with its own error,
never with `http.ErrServerClosed`, which the server returns only after
`Shutdown`. -/
def step (o : OauthTokenExchanger) (m : ServeMux) (s : ServerState) :
    Step → ServerState × List Event
  | Step.accept r =>
    (⟨s.t, s.e, s.conns ++ [⟨r, Pc.start⟩], s.pending, s.listener, s.main⟩, [])
  | Step.conn i => ServeHTTP o m s i
  | Step.shutdown =>
    if 0 < s.pending then
      match s.listener with
      | Listener.listening =>
        (⟨s.t, s.e, s.conns, s.pending - 1, Listener.closed GoError.ErrServerClosed,
          s.main⟩, [])
      | Listener.closed _ => (⟨s.t, s.e, s.conns, s.pending - 1, s.listener, s.main⟩, [])
    else (s, [])
  | Step.fail ident text =>
    match s.listener with
    | Listener.listening =>
      (⟨s.t, s.e, s.conns, s.pending, Listener.closed (GoError.custom ident text),
        s.main⟩, [])
    | Listener.closed _ => (s, [])
  | Step.main => mainStep s

/-- A step together with the log. -/
def exec (o : OauthTokenExchanger) (m : ServeMux) (sl : ServerState × List Event)
    (st : Step) : ServerState × List Event :=
  ((step o m sl.1 st).1, sl.2 ++ (step o m sl.1 st).2)

/-- The steps of a schedule in turn. -/
def runSteps (o : OauthTokenExchanger) (m : ServeMux) (steps : List Step)
    (sl : ServerState × List Event) : ServerState × List Event :=
  steps.foldl (exec o m) sl

/-- The pattern registered on the mux (lines 76-77). -/
def routePattern (o : OauthTokenExchanger) : String :=
  let path := Trim o.ListenerPath "/"
  "/" ++ path

/-- The mux of a run: a fresh mux with the route pattern registered
(lines 43 and 77). -/
def muxOf (o : OauthTokenExchanger) : ServeMux :=
  NewServeMux.HandleFunc (routePattern o)

/-- The state and the log when `s.ListenAndServe()` is called: the browser
was opened (line 40), `t` and `e` have their zero values (lines 47-48) and
the route is registered (line 77). -/
def initial (o : OauthTokenExchanger) (w : World) : ServerState × List Event :=
  (⟨Token.zero, none, [], 0, Listener.listening, MainPc.serving⟩,
    [Event.openURL o.AuthServerRequestURL w.openURL, Event.handleFunc (routePattern o),
      Event.listen (":" ++ toString o.ListenerPort)])

/-- The state and the log after the schedule of the world. -/
def atSchedule (o : OauthTokenExchanger) (w : World) : ServerState × List Event :=
  runSteps o (muxOf o) w.schedule (initial o w)

/-- The method `TokenExchange` (lines 38-89) with its final state and log:
after the schedule the caller takes its remaining steps alone; from any
state it returns within five of them unless it is blocked in
`ListenAndServe`. -/
def TokenExchangeRun (o : OauthTokenExchanger) (w : World) : ServerState × List Event :=
  runSteps o (muxOf o) [Step.main, Step.main, Step.main, Step.main, Step.main]
    (atSchedule o w)

/-- The method `TokenExchange`: the returned token and error, or `none` when
the call never returns because the listener is never closed. -/
def TokenExchange (o : OauthTokenExchanger) (w : World) : Option (Token × Error) :=
  match (TokenExchangeRun o w).1.main with
  | MainPc.finished t e => some (t, e)
  | _ => none

/-- The steps of one call of `TokenExchange`. -/
def trace (o : OauthTokenExchanger) (w : World) : List Event :=
  (TokenExchangeRun o w).2

/-- The error `s.ListenAndServe()` returns in a run, `none` when it never
returns. -/
def served (o : OauthTokenExchanger) (w : World) : Option GoError :=
  ListenAndServe (TokenExchangeRun o w).1

/-! ## Observations on a run -/

/-- Whether the server hands request `r` to the callback, that is, whether
`r` is a request served at the registered path. -/
def routed (o : OauthTokenExchanger) (r : Request) : Bool :=
  decide (dispatch (muxOf o) r = Dispatch.callback)

/-- Whether the goroutine `c` runs the callback and has taken at least `k`
of its steps: the handler call for 1, the store of the token for 2, the
store of the error for 3, the reply for 4, the start of the shutdown
goroutine for 5. -/
def past (o : OauthTokenExchanger) (k : Nat) (c : Conn) : Bool :=
  routed o c.r && decide (k ≤ c.pc.rank)

/-- The requests of a run on which the handler is invoked, in the order the
server read them. -/
def calls (o : OauthTokenExchanger) (w : World) : List Request :=
  ((TokenExchangeRun o w).1.conns.filter (past o 1)).map Conn.r

/-- The replies written for request `r`. -/
def responsesTo (r : Request) : List Event → List Response
  | [] => []
  | Event.respond q resp :: rest =>
    if q = r then resp :: responsesTo r rest else responsesTo r rest
  | _ :: rest => responsesTo r rest

/-- The number of handler invocations. -/
def handlerCalls (log : List Event) : Nat :=
  log.countP (fun ev => match ev with | Event.call _ => true | _ => false)

/-- The number of stores of the shared token by the callback. -/
def writesT (log : List Event) : Nat :=
  log.countP (fun ev => match ev with | Event.storeT _ => true | _ => false)

/-- The number of stores of the shared error by the callback. -/
def writesE (log : List Event) : Nat :=
  log.countP (fun ev => match ev with | Event.storeE _ => true | _ => false)

/-- The number of shutdown goroutines started. -/
def shutdowns (log : List Event) : Nat :=
  log.countP (fun ev => match ev with | Event.goShutdown => true | _ => false)

/-- The number of returns of `TokenExchange`, each of which reads the shared
outcome. -/
def returns (log : List Event) : Nat :=
  log.countP (fun ev => match ev with | Event.ret _ _ => true | _ => false)

/-- Whether `sub` occurs in `s` as a contiguous piece. -/
def containsText (s sub : String) : Prop :=
  ∃ pre post : String, s = pre ++ sub ++ post

/-- The error `TokenExchange` returns for captured error `e` and listener
error `serverErr` when lines 84-88 run without a step of another goroutine
in between. -/
def finalErr (e : Error) (serverErr : GoError) : Error :=
  if e = none ∧ serverErr ≠ GoError.ErrServerClosed then some serverErr else e

/-- The shared token and error at the end of the schedule. -/
def sharedAtSchedule (o : OauthTokenExchanger) (w : World) : Token × Error :=
  ((atSchedule o w).1.t, (atSchedule o w).1.e)

/-- A run in which the caller runs lines 80-88 only after the schedule, so
that no other goroutine takes a step between the return of `ListenAndServe`
and the return of `TokenExchange`. -/
def uninterrupted (w : World) : Prop :=
  Step.main ∉ w.schedule

/-- A run is quiet when it is uninterrupted and no callback is between its
handler call and the completion of its two stores when `ListenAndServe`
returns. -/
def quiet (o : OauthTokenExchanger) (w : World) : Prop :=
  uninterrupted w
  ∧ ∀ c ∈ (TokenExchangeRun o w).1.conns, c.pc ≠ Pc.called ∧ c.pc ≠ Pc.storedT

/-- The result of the handler in a run: `none` when it was never invoked,
else what its invocation for the last request read returned. -/
def handlerOutcome (o : OauthTokenExchanger) (w : World) : Option (Token × Error) :=
  (calls o w).getLast?.map o.Handler

/-- The three cases of the return guarantee as the specification words it. -/
inductive SpecCase where
  | a : SpecCase
  | b : SpecCase
  | c : SpecCase
  deriving DecidableEq, Repr

/-- The return guarantee as the specification words it, for handler result
`ran`, listener result `L` and returned pair `res`: (a) the handler
returned an error, which is returned with the zero token; (b) the handler
succeeded, its token is returned with a nil error; (c) the handler never
ran, the listener failed with an error other than `http.ErrServerClosed`,
which is returned. -/
def specGuarantee : SpecCase → Option (Token × Error) → GoError → Token × Error → Prop
  | SpecCase.a, ran, _, res => ∃ T E, ran = some (T, some E) ∧ res = (Token.zero, some E)
  | SpecCase.b, ran, _, res => ∃ T, ran = some (T, none) ∧ res = (T, none)
  | SpecCase.c, ran, L, res =>
    ran = none ∧ L ≠ GoError.ErrServerClosed ∧ res.2 = some L

/-- The cases in which `TokenExchange` returns. -/
inductive ReturnCase where
  | handlerError : ReturnCase
  | success : ReturnCase
  | successListenerError : ReturnCase
  | listenerError : ReturnCase
  deriving DecidableEq, Repr

/-- What `TokenExchange` returns in each case, for handler result `ran`,
listener result `L` and returned pair `res`. -/
def returnGuarantee : ReturnCase → Option (Token × Error) → GoError → Token × Error → Prop
  | ReturnCase.handlerError, ran, _, res =>
    ∃ T E, ran = some (T, some E) ∧ res = (T, some E)
  | ReturnCase.success, ran, L, res =>
    ∃ T, ran = some (T, none) ∧ L = GoError.ErrServerClosed ∧ res = (T, none)
  | ReturnCase.successListenerError, ran, L, res =>
    ∃ T, ran = some (T, none) ∧ L ≠ GoError.ErrServerClosed ∧ res = (T, some L)
  | ReturnCase.listenerError, ran, L, res =>
    ran = none ∧ L ≠ GoError.ErrServerClosed ∧ res = (Token.zero, some L)

/-! ## Transitions and invariants -/

/-- The atomic transitions of the shared state, each with the events it
logs. -/
inductive Trans (o : OauthTokenExchanger) (s : ServerState) :
    List Event → ServerState → Prop where
  | idle : Trans o s [] s
  | accept (r : Request) :
    Trans o s [] ⟨s.t, s.e, s.conns ++ [⟨r, Pc.start⟩], s.pending, s.listener, s.main⟩
  | call (i : Nat) (c : Conn) (hi : s.conns[i]? = some c) (hr : routed o c.r = true)
      (hpc : c.pc = Pc.start) :
    Trans o s [Event.call c.r]
      ⟨s.t, s.e, s.conns.set i ⟨c.r, Pc.called⟩, s.pending, s.listener, s.main⟩
  | storeT (i : Nat) (c : Conn) (hi : s.conns[i]? = some c) (hr : routed o c.r = true)
      (hpc : c.pc = Pc.called) :
    Trans o s [Event.storeT (o.Handler c.r).1]
      ⟨(o.Handler c.r).1, s.e, s.conns.set i ⟨c.r, Pc.storedT⟩, s.pending, s.listener,
        s.main⟩
  | storeE (i : Nat) (c : Conn) (hi : s.conns[i]? = some c) (hr : routed o c.r = true)
      (hpc : c.pc = Pc.storedT) :
    Trans o s [Event.storeE (o.Handler c.r).2]
      ⟨s.t, (o.Handler c.r).2, s.conns.set i ⟨c.r, Pc.storedE⟩, s.pending, s.listener,
        s.main⟩
  | respond (i : Nat) (c : Conn) (hi : s.conns[i]? = some c) (hr : routed o c.r = true)
      (hpc : c.pc = Pc.storedE) :
    Trans o s [Event.respond c.r (cbReply o c.r)]
      ⟨s.t, s.e, s.conns.set i ⟨c.r, Pc.responded⟩, s.pending, s.listener, s.main⟩
  | goShutdown (i : Nat) (c : Conn) (hi : s.conns[i]? = some c)
      (hr : routed o c.r = true) (hpc : c.pc = Pc.responded) :
    Trans o s [Event.goShutdown]
      ⟨s.t, s.e, s.conns.set i ⟨c.r, Pc.done⟩, s.pending + 1, s.listener, s.main⟩
  | reply (i : Nat) (c : Conn) (resp : Response) (hi : s.conns[i]? = some c)
      (hd : dispatch (muxOf o) c.r = Dispatch.reply resp) (hpc : c.pc = Pc.start) :
    Trans o s [Event.respond c.r resp]
      ⟨s.t, s.e, s.conns.set i ⟨c.r, Pc.done⟩, s.pending, s.listener, s.main⟩
  | redirect (i : Nat) (c : Conn) (url : String) (hi : s.conns[i]? = some c)
      (hd : dispatch (muxOf o) c.r = Dispatch.redirect url) (hpc : c.pc = Pc.start) :
    Trans o s [Event.redirect c.r url]
      ⟨s.t, s.e, s.conns.set i ⟨c.r, Pc.done⟩, s.pending, s.listener, s.main⟩
  | shutdown (hp : 0 < s.pending) (hl : s.listener = Listener.listening) :
    Trans o s []
      ⟨s.t, s.e, s.conns, s.pending - 1, Listener.closed GoError.ErrServerClosed, s.main⟩
  | shutdownLate (hp : 0 < s.pending) :
    Trans o s [] ⟨s.t, s.e, s.conns, s.pending - 1, s.listener, s.main⟩
  | fail (ident : Nat) (text : String) (hl : s.listener = Listener.listening) :
    Trans o s []
      ⟨s.t, s.e, s.conns, s.pending, Listener.closed (GoError.custom ident text), s.main⟩
  | mainServed (L : GoError) (hm : s.main = MainPc.serving)
      (hl : s.listener = Listener.closed L) :
    Trans o s [Event.served (some L)]
      ⟨s.t, s.e, s.conns, s.pending, s.listener, MainPc.check L⟩
  | mainToAssign (L : GoError) (hm : s.main = MainPc.check L) (he : s.e = none)
      (hL : L ≠ GoError.ErrServerClosed) :
    Trans o s [] ⟨s.t, s.e, s.conns, s.pending, s.listener, MainPc.assign L⟩
  | mainSkip (L : GoError) (hm : s.main = MainPc.check L)
      (hc : ¬ (s.e = none ∧ L ≠ GoError.ErrServerClosed)) :
    Trans o s [] ⟨s.t, s.e, s.conns, s.pending, s.listener, MainPc.readT⟩
  | mainAssign (L : GoError) (hm : s.main = MainPc.assign L) :
    Trans o s [Event.assignE (some L)]
      ⟨s.t, some L, s.conns, s.pending, s.listener, MainPc.readT⟩
  | mainReadT (hm : s.main = MainPc.readT) :
    Trans o s [] ⟨s.t, s.e, s.conns, s.pending, s.listener, MainPc.readE s.t⟩
  | mainReadE (tv : Token) (hm : s.main = MainPc.readE tv) :
    Trans o s [Event.ret tv s.e]
      ⟨s.t, s.e, s.conns, s.pending, s.listener, MainPc.finished tv s.e⟩

/-- Some goroutine of the list runs the callback, has taken at least `k`
steps, and its request satisfies `Q`. -/
def someC (o : OauthTokenExchanger) (k : Nat) (Q : Request → Prop) (l : List Conn) : Prop :=
  ∃ x ∈ l, past o k x = true ∧ Q x.r

/-- No goroutine of the list runs the callback and has taken `k` steps. -/
def noC (o : OauthTokenExchanger) (k : Nat) (l : List Conn) : Prop :=
  ∀ x ∈ l, past o k x = false

/-- A token read by the caller is the zero token or was stored by a
callback, and was stored by a callback when the listener was shut down. -/
def Tcap (o : OauthTokenExchanger) (s : ServerState) (tv : Token) : Prop :=
  (tv = Token.zero ∨ someC o 2 (fun r => tv = (o.Handler r).1) s.conns)
  ∧ (s.listener = Listener.closed GoError.ErrServerClosed →
      someC o 2 (fun r => tv = (o.Handler r).1) s.conns)

/-- An error read by the caller was stored by a callback, or is the error of
the listener, which is not `http.ErrServerClosed`. -/
def Ecap (o : OauthTokenExchanger) (s : ServerState) (ev : Error) (L : GoError) : Prop :=
  someC o 3 (fun r => ev = (o.Handler r).2) s.conns
  ∨ (L ≠ GoError.ErrServerClosed ∧ ev = some L)

/-- After the test of line 84 the listener is closed, and its error is
`http.ErrServerClosed`, or a callback has stored an error, or the shared
error is the error of the listener. -/
def checked (o : OauthTokenExchanger) (s : ServerState) : Prop :=
  ∃ L, s.listener = Listener.closed L
    ∧ (L = GoError.ErrServerClosed ∨ someC o 3 (fun _ => True) s.conns ∨ s.e = some L)

/-- What holds at each position of the caller. -/
def mainOK (o : OauthTokenExchanger) (s : ServerState) : Prop :=
  match s.main with
  | MainPc.serving => True
  | MainPc.check L => s.listener = Listener.closed L
  | MainPc.assign L => s.listener = Listener.closed L ∧ L ≠ GoError.ErrServerClosed
  | MainPc.readT => checked o s
  | MainPc.readE tv => checked o s ∧ Tcap o s tv
  | MainPc.finished tv ev => ∃ L, s.listener = Listener.closed L ∧ Tcap o s tv ∧ Ecap o s ev L

/-- The invariants of the shared state. -/
structure Inv (o : OauthTokenExchanger) (s : ServerState) : Prop where
  shut : (0 < s.pending ∨ s.listener = Listener.closed GoError.ErrServerClosed) →
    someC o 5 (fun _ => True) s.conns
  tok : (s.t = Token.zero ∧ noC o 2 s.conns)
    ∨ someC o 2 (fun r => s.t = (o.Handler r).1) s.conns
  err : (s.e = none ∧ noC o 3 s.conns)
    ∨ someC o 3 (fun r => s.e = (o.Handler r).2) s.conns
    ∨ (∃ L, s.listener = Listener.closed L ∧ L ≠ GoError.ErrServerClosed
        ∧ s.e = some L ∧ s.main ≠ MainPc.serving)
  main : mainOK o s

/-- Whether a reply was written for the goroutine `c`. -/
def replied (o : OauthTokenExchanger) (c : Conn) : Bool :=
  match dispatch (muxOf o) c.r with
  | Dispatch.callback => decide (4 ≤ c.pc.rank)
  | Dispatch.reply _ => decide (c.pc = Pc.done)
  | Dispatch.redirect _ => false

/-- The reply that is written for request `r`, if one is. -/
def replyFor (o : OauthTokenExchanger) (r : Request) : Response :=
  match dispatch (muxOf o) r with
  | Dispatch.callback => cbReply o r
  | Dispatch.reply resp => resp
  | Dispatch.redirect _ => ⟨0, ""⟩

/-- The log agrees with the goroutines: each kind of event was logged once
for each goroutine that has taken the step, and every reply is the reply for
its request. -/
structure LogInv (o : OauthTokenExchanger) (s : ServerState) (log : List Event) : Prop where
  nCall : handlerCalls log = s.conns.countP (past o 1)
  nT : writesT log = s.conns.countP (past o 2)
  nE : writesE log = s.conns.countP (past o 3)
  nShut : shutdowns log = s.conns.countP (past o 5)
  nResp : ∀ q, (responsesTo q log).length
    = s.conns.countP (fun c => decide (c.r = q) && replied o c)
  resp : ∀ q, ∀ x ∈ responsesTo q log, x = replyFor o q
  nRet : returns log = (match s.main with | MainPc.finished _ _ => 1 | _ => 0)
  order : ∀ tv ev, s.main = MainPc.finished tv ev →
    ∃ pre post, log = pre ++ Event.ret tv ev :: post ∧ returns pre = 0
      ∧ (s.listener = Listener.closed GoError.ErrServerClosed →
          1 ≤ writesT pre ∧ 1 ≤ writesE pre)

/-- How the goroutines change in one transition: not at all, a new one is
started, or one moves forward. -/
def ConnsRel (l l2 : List Conn) : Prop :=
  l2 = l ∨ (∃ r, l2 = l ++ [⟨r, Pc.start⟩])
    ∨ ∃ i c pc, l[i]? = some c ∧ c.pc.rank ≤ pc.rank ∧ l2 = l.set i ⟨c.r, pc⟩

/-- Whether a run is uninterrupted can be computed. -/
instance uninterruptedDecidable (w : World) : Decidable (uninterrupted w) := by
  unfold uninterrupted
  exact inferInstance

/-- Whether a run is quiet can be computed. -/
instance quietDecidable (o : OauthTokenExchanger) (w : World) : Decidable (quiet o w) := by
  unfold quiet
  exact inferInstance

/-! ## Sample runs -/

/-- A token with every field set. -/
def sampleToken : Token := ⟨"ya29.a0", "Bearer", "1//0g", 1700003600⟩

/-- A handler error. -/
def sampleError : GoError := GoError.custom 1 "oauth2: cannot fetch token: 400 Bad Request"

/-- The error of a listener that cannot bind its port. -/
def bindError : GoError :=
  GoError.custom 2 "listen tcp :3000: bind: address already in use"

/-- A listener error raised while accepting connections. -/
def acceptError : GoError :=
  GoError.custom 3 "accept tcp [::]:3000: use of closed network connection"

/-- The redirect of the authorisation server to the default callback path. -/
def callbackRequest : Request := ⟨"GET", "/callback?code=4/0Ab", "/callback"⟩

/-- The request a browser sends for the site icon. -/
def faviconRequest : Request := ⟨"GET", "/favicon.ico", "/favicon.ico"⟩

/-- A default exchanger whose handler always succeeds with `sampleToken`. -/
def okExchanger : OauthTokenExchanger :=
  NewOauthTokenExchanger "https://auth.example/authorize" (fun _ => (sampleToken, none))

/-- A default exchanger whose handler fails with `sampleError` but returns
`sampleToken` alongside it. -/
def leakyExchanger : OauthTokenExchanger :=
  NewOauthTokenExchanger "https://auth.example/authorize"
    (fun _ => (sampleToken, some sampleError))

/-- A run in which the browser asks for the favicon and gets its reply, then
the callback arrives and runs to its end, and the shutdown goroutine
runs. -/
def callbackWorld : World :=
  ⟨none, [Step.accept faviconRequest, Step.conn 0, Step.accept callbackRequest,
    Step.conn 1, Step.conn 1, Step.conn 1, Step.conn 1, Step.conn 1, Step.shutdown]⟩

/-- A run in which the callback has stored its outcome and written its reply
when the listener fails by itself. -/
def crashWorld : World :=
  ⟨none, [Step.accept callbackRequest, Step.conn 0, Step.conn 0, Step.conn 0, Step.conn 0,
    Step.fail 3 "accept tcp [::]:3000: use of closed network connection"]⟩

/-- A run in which the handler has been called, and has returned, when the
listener fails by itself, before the callback stores the outcome. -/
def raceWorld : World :=
  ⟨none, [Step.accept callbackRequest, Step.conn 0,
    Step.fail 3 "accept tcp [::]:3000: use of closed network connection"]⟩

/-- A run in which the port cannot be bound. -/
def bindFailureWorld : World :=
  ⟨none, [Step.fail 2 "listen tcp :3000: bind: address already in use"]⟩

theorem mem_set_or (l : List Conn) (i : Nat) (c y x : Conn) (hi : l[i]? = some c)
    (hx : x ∈ l) : x ∈ l.set i y ∨ x = c := by
  induction l generalizing i with
  | nil => simp at hx
  | cons a as ih =>
    cases i with
    | zero =>
      simp at hi
      rcases List.mem_cons.mp hx with h | h
      · right; rw [h, hi]
      · left; simp [h]
    | succ j =>
      simp at hi
      rcases List.mem_cons.mp hx with h | h
      · left; simp [h]
      · rcases ih j hi h with h2 | h2
        · left; simp [h2]
        · right; exact h2

theorem mem_set_self (l : List Conn) (i : Nat) (c y : Conn) (hi : l[i]? = some c) :
    y ∈ l.set i y := by
  induction l generalizing i with
  | nil => simp at hi
  | cons a as ih =>
    cases i with
    | zero => simp
    | succ j =>
      simp at hi
      simp [ih j hi]

theorem mem_of_getElem? (l : List Conn) (i : Nat) (c : Conn) (hi : l[i]? = some c) :
    c ∈ l := by
  induction l generalizing i with
  | nil => simp at hi
  | cons a as ih =>
    cases i with
    | zero =>
      simp at hi
      simp [hi]
    | succ j =>
      simp at hi
      simp [ih j hi]

theorem countP_set (p : Conn → Bool) (l : List Conn) (i : Nat) (c y : Conn)
    (hi : l[i]? = some c) :
    (l.set i y).countP p + (if p c then 1 else 0) = l.countP p + (if p y then 1 else 0) := by
  induction l generalizing i with
  | nil => simp at hi
  | cons a as ih =>
    cases i with
    | zero =>
      simp at hi
      subst hi
      simp only [List.set_cons_zero, List.countP_cons]
      omega
    | succ j =>
      simp at hi
      have := ih j hi
      simp only [List.set_cons_succ, List.countP_cons]
      omega

theorem past_mono (o : OauthTokenExchanger) (k : Nat) (c : Conn) (pc : Pc)
    (h : c.pc.rank ≤ pc.rank) (hp : past o k c = true) : past o k ⟨c.r, pc⟩ = true := by
  simp only [past, Bool.and_eq_true, decide_eq_true_eq] at hp ⊢
  exact ⟨hp.1, by omega⟩

theorem past_le (o : OauthTokenExchanger) (j k : Nat) (c : Conn) (h : j ≤ k)
    (hp : past o k c = true) : past o j c = true := by
  simp only [past, Bool.and_eq_true, decide_eq_true_eq] at hp ⊢
  exact ⟨hp.1, by omega⟩

theorem someC_set (o : OauthTokenExchanger) (k : Nat) (Q : Request → Prop)
    (l : List Conn) (i : Nat) (c : Conn) (pc : Pc) (hi : l[i]? = some c)
    (h : c.pc.rank ≤ pc.rank) (hs : someC o k Q l) : someC o k Q (l.set i ⟨c.r, pc⟩) := by
  obtain ⟨x, hx, hp, hq⟩ := hs
  rcases mem_set_or l i c ⟨c.r, pc⟩ x hi hx with h1 | h1
  · exact ⟨x, h1, hp, hq⟩
  · subst h1
    exact ⟨⟨x.r, pc⟩, mem_set_self l i x _ hi, past_mono o k x pc h hp, hq⟩

theorem someC_new (o : OauthTokenExchanger) (k : Nat) (Q : Request → Prop)
    (l : List Conn) (i : Nat) (c : Conn) (pc : Pc) (hi : l[i]? = some c)
    (hp : past o k ⟨c.r, pc⟩ = true) (hq : Q c.r) : someC o k Q (l.set i ⟨c.r, pc⟩) :=
  ⟨⟨c.r, pc⟩, mem_set_self l i c _ hi, hp, hq⟩

theorem someC_append (o : OauthTokenExchanger) (k : Nat) (Q : Request → Prop)
    (l : List Conn) (x : Conn) (hs : someC o k Q l) : someC o k Q (l ++ [x]) := by
  obtain ⟨y, hy, hp, hq⟩ := hs
  exact ⟨y, by simp [hy], hp, hq⟩

theorem someC_imp (o : OauthTokenExchanger) (k : Nat) (Q Q2 : Request → Prop)
    (l : List Conn) (h : ∀ r, Q r → Q2 r) (hs : someC o k Q l) : someC o k Q2 l := by
  obtain ⟨y, hy, hp, hq⟩ := hs
  exact ⟨y, hy, hp, h _ hq⟩

theorem noC_set (o : OauthTokenExchanger) (k : Nat) (l : List Conn) (i : Nat)
    (y : Conn) (hp : past o k y = false) (hn : noC o k l) : noC o k (l.set i y) := by
  intro x hx
  rcases List.mem_or_eq_of_mem_set hx with h | h
  · exact hn x h
  · rw [h]; exact hp

theorem noC_append (o : OauthTokenExchanger) (k : Nat) (l : List Conn) (y : Conn)
    (hp : past o k y = false) (hn : noC o k l) : noC o k (l ++ [y]) := by
  intro x hx
  rcases List.mem_append.mp hx with h | h
  · exact hn x h
  · simp at h
    rw [h]; exact hp

theorem noC_someC (o : OauthTokenExchanger) (j k : Nat) (Q : Request → Prop)
    (l : List Conn) (h : j ≤ k) (hn : noC o j l) (hs : someC o k Q l) : False := by
  obtain ⟨y, hy, hp, _⟩ := hs
  have := past_le o j k y h hp
  rw [hn y hy] at this
  exact Bool.noConfusion this

/-! ### Steps are transitions -/

theorem step_trans (o : OauthTokenExchanger) (s : ServerState) (st : Step) :
    Trans o s (step o (muxOf o) s st).2 (step o (muxOf o) s st).1 := by
  cases st with
  | accept r =>
    simp only [step]
    exact Trans.accept r
  | conn i =>
    cases hi : s.conns[i]? with
    | none =>
      simp only [step, ServeHTTP, hi]
      exact Trans.idle
    | some c =>
      cases hd : dispatch (muxOf o) c.r with
      | callback =>
        have hr : routed o c.r = true := by simp [routed, hd]
        cases hpc : c.pc with
        | start =>
          simp only [step, ServeHTTP, hi, hd, cb, hpc, ServerState.setPc]
          exact Trans.call i c hi hr hpc
        | called =>
          simp only [step, ServeHTTP, hi, hd, cb, hpc]
          exact Trans.storeT i c hi hr hpc
        | storedT =>
          simp only [step, ServeHTTP, hi, hd, cb, hpc]
          exact Trans.storeE i c hi hr hpc
        | storedE =>
          simp only [step, ServeHTTP, hi, hd, cb, hpc, ServerState.setPc]
          exact Trans.respond i c hi hr hpc
        | responded =>
          simp only [step, ServeHTTP, hi, hd, cb, hpc]
          exact Trans.goShutdown i c hi hr hpc
        | done =>
          simp only [step, ServeHTTP, hi, hd, cb, hpc]
          exact Trans.idle
      | reply resp =>
        by_cases hpc : c.pc = Pc.start
        · simp only [step, ServeHTTP, hi, hd, if_pos hpc, ServerState.setPc]
          exact Trans.reply i c resp hi hd hpc
        · simp only [step, ServeHTTP, hi, hd, if_neg hpc]
          exact Trans.idle
      | redirect url =>
        by_cases hpc : c.pc = Pc.start
        · simp only [step, ServeHTTP, hi, hd, if_pos hpc, ServerState.setPc]
          exact Trans.redirect i c url hi hd hpc
        · simp only [step, ServeHTTP, hi, hd, if_neg hpc]
          exact Trans.idle
  | shutdown =>
    by_cases hp : 0 < s.pending
    · cases hl : s.listener with
      | listening =>
        simp only [step, if_pos hp, hl]
        exact Trans.shutdown hp hl
      | closed err =>
        have := Trans.shutdownLate (o := o) (s := s) hp
        rw [hl] at this
        simp only [step, if_pos hp, hl]
        exact this
    · simp only [step, if_neg hp]
      exact Trans.idle
  | fail ident text =>
    cases hl : s.listener with
    | listening =>
      simp only [step, hl]
      exact Trans.fail ident text hl
    | closed err =>
      simp only [step, hl]
      exact Trans.idle
  | main =>
    cases hm : s.main with
    | serving =>
      cases hl : s.listener with
      | listening =>
        simp only [step, mainStep, hm, ListenAndServe, hl]
        exact Trans.idle
      | closed L =>
        have := Trans.mainServed (o := o) L hm hl
        rw [hl] at this
        simp only [step, mainStep, hm, ListenAndServe, hl]
        exact this
    | check L =>
      by_cases hc : s.e = none ∧ L ≠ GoError.ErrServerClosed
      · simp only [step, mainStep, hm, if_pos hc]
        exact Trans.mainToAssign L hm hc.1 hc.2
      · simp only [step, mainStep, hm, if_neg hc]
        exact Trans.mainSkip L hm hc
    | assign L =>
      simp only [step, mainStep, hm]
      exact Trans.mainAssign L hm
    | readT =>
      simp only [step, mainStep, hm]
      exact Trans.mainReadT hm
    | readE tv =>
      simp only [step, mainStep, hm]
      exact Trans.mainReadE tv hm
    | finished tv ev =>
      simp only [step, mainStep, hm]
      exact Trans.idle

/-! ### Invariants -/

theorem trans_conns (o : OauthTokenExchanger) (s s2 : ServerState) (evs : List Event)
    (tr : Trans o s evs s2) : ConnsRel s.conns s2.conns := by
  cases tr with
  | accept r => exact Or.inr (Or.inl ⟨r, rfl⟩)
  | call i c hi hr hpc => exact Or.inr (Or.inr ⟨i, c, _, hi, by simp [hpc, Pc.rank], rfl⟩)
  | storeT i c hi hr hpc => exact Or.inr (Or.inr ⟨i, c, _, hi, by simp [hpc, Pc.rank], rfl⟩)
  | storeE i c hi hr hpc => exact Or.inr (Or.inr ⟨i, c, _, hi, by simp [hpc, Pc.rank], rfl⟩)
  | respond i c hi hr hpc => exact Or.inr (Or.inr ⟨i, c, _, hi, by simp [hpc, Pc.rank], rfl⟩)
  | goShutdown i c hi hr hpc =>
    exact Or.inr (Or.inr ⟨i, c, _, hi, by simp [hpc, Pc.rank], rfl⟩)
  | reply i c resp hi hd hpc =>
    exact Or.inr (Or.inr ⟨i, c, _, hi, by simp [hpc, Pc.rank], rfl⟩)
  | redirect i c url hi hd hpc =>
    exact Or.inr (Or.inr ⟨i, c, _, hi, by simp [hpc, Pc.rank], rfl⟩)
  | _ => exact Or.inl rfl

theorem someC_rel (o : OauthTokenExchanger) (k : Nat) (Q : Request → Prop)
    (l l2 : List Conn) (h : ConnsRel l l2) (hs : someC o k Q l) : someC o k Q l2 := by
  rcases h with h | ⟨r, h⟩ | ⟨i, c, pc, hi, hle, h⟩
  · rw [h]; exact hs
  · rw [h]; exact someC_append o k Q l _ hs
  · rw [h]; exact someC_set o k Q l i c pc hi hle hs

/-- A closed listener stays closed with the same error. -/
theorem trans_listener (o : OauthTokenExchanger) (s s2 : ServerState) (evs : List Event)
    (tr : Trans o s evs s2) (L : GoError) (hl : s.listener = Listener.closed L) :
    s2.listener = Listener.closed L := by
  cases tr <;> first
    | exact hl
    | (rename_i hl2; rw [hl2] at hl; exact Listener.noConfusion hl)

theorem noC_set_routed (o : OauthTokenExchanger) (k : Nat) (l : List Conn) (i : Nat)
    (r : Request) (pc : Pc) (hk : pc.rank < k) (hn : noC o k l) :
    noC o k (l.set i ⟨r, pc⟩) := by
  apply noC_set o k l i _ _ hn
  simp only [past, Bool.and_eq_false_imp, decide_eq_false_iff_not]
  intro _
  omega

theorem noC_set_unrouted (o : OauthTokenExchanger) (k : Nat) (l : List Conn) (i : Nat)
    (r : Request) (pc : Pc) (hu : routed o r = false) (hn : noC o k l) :
    noC o k (l.set i ⟨r, pc⟩) := by
  apply noC_set o k l i _ _ hn
  simp [past, hu]

theorem noC_contra (o : OauthTokenExchanger) (k : Nat) (l : List Conn) (i : Nat)
    (c : Conn) (hi : l[i]? = some c) (hr : routed o c.r = true) (hk : k ≤ c.pc.rank)
    (hn : noC o k l) : False := by
  have := hn c (mem_of_getElem? l i c hi)
  simp [past, hr, hk] at this

theorem noC_start (o : OauthTokenExchanger) (k : Nat) (l : List Conn) (r : Request)
    (hk : 0 < k) (hn : noC o k l) : noC o k (l ++ [⟨r, Pc.start⟩]) := by
  apply noC_append o k l _ _ hn
  simp only [past, Pc.rank, Bool.and_eq_false_imp, decide_eq_false_iff_not]
  intro _
  omega

theorem unrouted_of_reply (o : OauthTokenExchanger) (r : Request) (resp : Response)
    (hd : dispatch (muxOf o) r = Dispatch.reply resp) : routed o r = false := by
  simp [routed, hd]

theorem unrouted_of_redirect (o : OauthTokenExchanger) (r : Request) (url : String)
    (hd : dispatch (muxOf o) r = Dispatch.redirect url) : routed o r = false := by
  simp [routed, hd]

theorem Inv_shut (o : OauthTokenExchanger) (s s2 : ServerState) (evs : List Event)
    (h : Inv o s) (tr : Trans o s evs s2)
    (hprem : 0 < s2.pending ∨ s2.listener = Listener.closed GoError.ErrServerClosed) :
    someC o 5 (fun _ => True) s2.conns := by
  have hrel := trans_conns o s s2 evs tr
  cases tr with
  | goShutdown i c hi hr hpc =>
    exact someC_new o 5 _ s.conns i c Pc.done hi (by simp [past, hr, Pc.rank]) trivial
  | shutdown hp hl => exact h.shut (Or.inl hp)
  | shutdownLate hp => exact h.shut (hprem.elim (fun _ => Or.inl hp) Or.inr)
  | fail ident text hl =>
    rcases hprem with h1 | h1
    · exact h.shut (Or.inl h1)
    · simp at h1
  | _ => exact someC_rel o 5 _ _ _ hrel (h.shut hprem)

theorem Inv_tok (o : OauthTokenExchanger) (s s2 : ServerState) (evs : List Event)
    (h : Inv o s) (tr : Trans o s evs s2) :
    (s2.t = Token.zero ∧ noC o 2 s2.conns)
      ∨ someC o 2 (fun r => s2.t = (o.Handler r).1) s2.conns := by
  have hrel := trans_conns o s s2 evs tr
  cases tr with
  | storeT i c hi hr hpc =>
    exact Or.inr (someC_new o 2 _ s.conns i c Pc.storedT hi (by simp [past, hr, Pc.rank]) rfl)
  | accept r =>
    rcases h.tok with ⟨h1, h2⟩ | h1
    · exact Or.inl ⟨h1, noC_start o 2 _ r (by omega) h2⟩
    · exact Or.inr (someC_rel o 2 _ _ _ hrel h1)
  | call i c hi hr hpc =>
    rcases h.tok with ⟨h1, h2⟩ | h1
    · exact Or.inl ⟨h1, noC_set_routed o 2 _ i c.r Pc.called (by simp [Pc.rank]) h2⟩
    · exact Or.inr (someC_rel o 2 _ _ _ hrel h1)
  | storeE i c hi hr hpc =>
    rcases h.tok with ⟨h1, h2⟩ | h1
    · exact (noC_contra o 2 _ i c hi hr (by simp [hpc, Pc.rank]) h2).elim
    · exact Or.inr (someC_rel o 2 _ _ _ hrel h1)
  | respond i c hi hr hpc =>
    rcases h.tok with ⟨h1, h2⟩ | h1
    · exact (noC_contra o 2 _ i c hi hr (by simp [hpc, Pc.rank]) h2).elim
    · exact Or.inr (someC_rel o 2 _ _ _ hrel h1)
  | goShutdown i c hi hr hpc =>
    rcases h.tok with ⟨h1, h2⟩ | h1
    · exact (noC_contra o 2 _ i c hi hr (by simp [hpc, Pc.rank]) h2).elim
    · exact Or.inr (someC_rel o 2 _ _ _ hrel h1)
  | reply i c resp hi hd hpc =>
    rcases h.tok with ⟨h1, h2⟩ | h1
    · exact Or.inl ⟨h1, noC_set_unrouted o 2 _ i c.r _ (unrouted_of_reply o c.r resp hd) h2⟩
    · exact Or.inr (someC_rel o 2 _ _ _ hrel h1)
  | redirect i c url hi hd hpc =>
    rcases h.tok with ⟨h1, h2⟩ | h1
    · exact Or.inl
        ⟨h1, noC_set_unrouted o 2 _ i c.r _ (unrouted_of_redirect o c.r url hd) h2⟩
    · exact Or.inr (someC_rel o 2 _ _ _ hrel h1)
  | _ => exact h.tok

/-- The caller never goes back to `ListenAndServe`. -/
theorem trans_main_ne_serving (o : OauthTokenExchanger) (s s2 : ServerState)
    (evs : List Event) (tr : Trans o s evs s2) (hm : s.main ≠ MainPc.serving) :
    s2.main ≠ MainPc.serving := by
  cases tr <;> first
    | exact hm
    | (intro h; exact MainPc.noConfusion h)

theorem Inv_err (o : OauthTokenExchanger) (s s2 : ServerState) (evs : List Event)
    (h : Inv o s) (tr : Trans o s evs s2) :
    (s2.e = none ∧ noC o 3 s2.conns)
      ∨ someC o 3 (fun r => s2.e = (o.Handler r).2) s2.conns
      ∨ (∃ L, s2.listener = Listener.closed L ∧ L ≠ GoError.ErrServerClosed
          ∧ s2.e = some L ∧ s2.main ≠ MainPc.serving) := by
  have hrel := trans_conns o s s2 evs tr
  have hlis := trans_listener o s s2 evs tr
  have hmain := trans_main_ne_serving o s s2 evs tr
  cases tr with
  | storeE i c hi hr hpc =>
    exact Or.inr (Or.inl
      (someC_new o 3 _ s.conns i c Pc.storedE hi (by simp [past, hr, Pc.rank]) rfl))
  | mainAssign L hm =>
    have hmo := h.main
    unfold mainOK at hmo
    rw [hm] at hmo
    exact Or.inr (Or.inr ⟨L, hmo.1, hmo.2, rfl, fun hx => MainPc.noConfusion hx⟩)
  | accept r =>
    rcases h.err with ⟨h1, h2⟩ | h1 | ⟨L, h1, h2, h3, h4⟩
    · exact Or.inl ⟨h1, noC_start o 3 _ r (by omega) h2⟩
    · exact Or.inr (Or.inl (someC_rel o 3 _ _ _ hrel h1))
    · exact Or.inr (Or.inr ⟨L, hlis L h1, h2, h3, hmain h4⟩)
  | call i c hi hr hpc =>
    rcases h.err with ⟨h1, h2⟩ | h1 | ⟨L, h1, h2, h3, h4⟩
    · exact Or.inl ⟨h1, noC_set_routed o 3 _ i c.r Pc.called (by simp [Pc.rank]) h2⟩
    · exact Or.inr (Or.inl (someC_rel o 3 _ _ _ hrel h1))
    · exact Or.inr (Or.inr ⟨L, hlis L h1, h2, h3, hmain h4⟩)
  | storeT i c hi hr hpc =>
    rcases h.err with ⟨h1, h2⟩ | h1 | ⟨L, h1, h2, h3, h4⟩
    · exact Or.inl ⟨h1, noC_set_routed o 3 _ i c.r Pc.storedT (by simp [Pc.rank]) h2⟩
    · exact Or.inr (Or.inl (someC_rel o 3 _ _ _ hrel h1))
    · exact Or.inr (Or.inr ⟨L, hlis L h1, h2, h3, hmain h4⟩)
  | respond i c hi hr hpc =>
    rcases h.err with ⟨h1, h2⟩ | h1 | ⟨L, h1, h2, h3, h4⟩
    · exact (noC_contra o 3 _ i c hi hr (by simp [hpc, Pc.rank]) h2).elim
    · exact Or.inr (Or.inl (someC_rel o 3 _ _ _ hrel h1))
    · exact Or.inr (Or.inr ⟨L, hlis L h1, h2, h3, hmain h4⟩)
  | goShutdown i c hi hr hpc =>
    rcases h.err with ⟨h1, h2⟩ | h1 | ⟨L, h1, h2, h3, h4⟩
    · exact (noC_contra o 3 _ i c hi hr (by simp [hpc, Pc.rank]) h2).elim
    · exact Or.inr (Or.inl (someC_rel o 3 _ _ _ hrel h1))
    · exact Or.inr (Or.inr ⟨L, hlis L h1, h2, h3, hmain h4⟩)
  | reply i c resp hi hd hpc =>
    rcases h.err with ⟨h1, h2⟩ | h1 | ⟨L, h1, h2, h3, h4⟩
    · exact Or.inl ⟨h1, noC_set_unrouted o 3 _ i c.r _ (unrouted_of_reply o c.r resp hd) h2⟩
    · exact Or.inr (Or.inl (someC_rel o 3 _ _ _ hrel h1))
    · exact Or.inr (Or.inr ⟨L, hlis L h1, h2, h3, hmain h4⟩)
  | redirect i c url hi hd hpc =>
    rcases h.err with ⟨h1, h2⟩ | h1 | ⟨L, h1, h2, h3, h4⟩
    · exact Or.inl
        ⟨h1, noC_set_unrouted o 3 _ i c.r _ (unrouted_of_redirect o c.r url hd) h2⟩
    · exact Or.inr (Or.inl (someC_rel o 3 _ _ _ hrel h1))
    · exact Or.inr (Or.inr ⟨L, hlis L h1, h2, h3, hmain h4⟩)
  | _ =>
    rcases h.err with ⟨h1, h2⟩ | h1 | ⟨L, h1, h2, h3, h4⟩
    · exact Or.inl ⟨h1, h2⟩
    · exact Or.inr (Or.inl h1)
    · exact Or.inr (Or.inr ⟨L, hlis L h1, h2, h3, hmain h4⟩)

theorem checked_pres (o : OauthTokenExchanger) (s s2 : ServerState)
    (hrel : ConnsRel s.conns s2.conns)
    (hlis : ∀ L, s.listener = Listener.closed L → s2.listener = Listener.closed L)
    (he : s2.e = s.e ∨ someC o 3 (fun _ => True) s2.conns) (h : checked o s) :
    checked o s2 := by
  obtain ⟨L, hl, hc⟩ := h
  refine ⟨L, hlis L hl, ?_⟩
  rcases hc with h1 | h1 | h1
  · exact Or.inl h1
  · exact Or.inr (Or.inl (someC_rel o 3 _ _ _ hrel h1))
  · rcases he with h2 | h2
    · exact Or.inr (Or.inr (by rw [h2, h1]))
    · exact Or.inr (Or.inl h2)

theorem Tcap_pres (o : OauthTokenExchanger) (s s2 : ServerState) (tv : Token)
    (hrel : ConnsRel s.conns s2.conns)
    (hlis : ∀ L, s.listener = Listener.closed L → s2.listener = Listener.closed L)
    (hcl : ∃ L, s.listener = Listener.closed L) (h : Tcap o s tv) : Tcap o s2 tv := by
  obtain ⟨L, hl⟩ := hcl
  constructor
  · rcases h.1 with h1 | h1
    · exact Or.inl h1
    · exact Or.inr (someC_rel o 2 _ _ _ hrel h1)
  · intro h2
    have h3 := hlis L hl
    rw [h2] at h3
    have hL : L = GoError.ErrServerClosed := by
      injection h3 with h4
      exact h4.symm
    rw [hL] at hl
    exact someC_rel o 2 _ _ _ hrel (h.2 hl)

theorem Ecap_pres (o : OauthTokenExchanger) (s s2 : ServerState) (ev : Error) (L : GoError)
    (hrel : ConnsRel s.conns s2.conns) (h : Ecap o s ev L) : Ecap o s2 ev L := by
  rcases h with h1 | h1
  · exact Or.inl (someC_rel o 3 _ _ _ hrel h1)
  · exact Or.inr h1

theorem mainOK_pres (o : OauthTokenExchanger) (s s2 : ServerState)
    (hm : s2.main = s.main) (hrel : ConnsRel s.conns s2.conns)
    (hlis : ∀ L, s.listener = Listener.closed L → s2.listener = Listener.closed L)
    (he : s2.e = s.e ∨ someC o 3 (fun _ => True) s2.conns) (h : mainOK o s) :
    mainOK o s2 := by
  unfold mainOK at h ⊢
  rw [hm]
  cases hmm : s.main with
  | serving => trivial
  | check L =>
    rw [hmm] at h
    exact hlis L h
  | assign L =>
    rw [hmm] at h
    exact ⟨hlis L h.1, h.2⟩
  | readT =>
    rw [hmm] at h
    exact checked_pres o s s2 hrel hlis he h
  | readE tv =>
    rw [hmm] at h
    obtain ⟨L, hl, _⟩ := h.1
    exact ⟨checked_pres o s s2 hrel hlis he h.1, Tcap_pres o s s2 tv hrel hlis ⟨L, hl⟩ h.2⟩
  | finished tv ev =>
    rw [hmm] at h
    obtain ⟨L, hl, ht, hev⟩ := h
    exact ⟨L, hlis L hl, Tcap_pres o s s2 tv hrel hlis ⟨L, hl⟩ ht,
      Ecap_pres o s s2 ev L hrel hev⟩

theorem closed_inj (s : ServerState) (L L2 : GoError)
    (h1 : s.listener = Listener.closed L) (h2 : s.listener = Listener.closed L2) :
    L = L2 := by
  rw [h1] at h2
  injection h2

theorem Inv_main (o : OauthTokenExchanger) (s s2 : ServerState) (evs : List Event)
    (h : Inv o s) (tr : Trans o s evs s2) : mainOK o s2 := by
  have hrel := trans_conns o s s2 evs tr
  have hlis := trans_listener o s s2 evs tr
  have hmo := h.main
  cases tr with
  | storeE i c hi hr hpc =>
    exact mainOK_pres o s _ rfl hrel hlis
      (Or.inr (someC_new o 3 _ s.conns i c Pc.storedE hi (by simp [past, hr, Pc.rank])
        trivial)) hmo
  | mainServed L hm hl =>
    unfold mainOK
    exact hl
  | mainToAssign L hm he hL =>
    unfold mainOK at hmo ⊢
    rw [hm] at hmo
    exact ⟨hmo, hL⟩
  | mainSkip L hm hc =>
    unfold mainOK at hmo ⊢
    rw [hm] at hmo
    refine ⟨L, hmo, ?_⟩
    by_cases hL : L = GoError.ErrServerClosed
    · exact Or.inl hL
    · have hne : s.e ≠ none := fun hx => hc ⟨hx, hL⟩
      rcases h.err with ⟨h1, _⟩ | h1 | ⟨L2, h1, _, h3, _⟩
      · exact (hne h1).elim
      · exact Or.inr (Or.inl (someC_imp o 3 _ _ _ (fun _ _ => trivial) h1))
      · have := closed_inj s L L2 hmo h1
        rw [this]
        exact Or.inr (Or.inr h3)
  | mainAssign L hm =>
    unfold mainOK at hmo ⊢
    rw [hm] at hmo
    exact ⟨L, hmo.1, Or.inr (Or.inr rfl)⟩
  | mainReadT hm =>
    unfold mainOK at hmo ⊢
    rw [hm] at hmo
    refine ⟨hmo, ?_, ?_⟩
    · rcases h.tok with ⟨h1, _⟩ | h1
      · exact Or.inl h1
      · exact Or.inr h1
    · intro hl
      rcases h.tok with ⟨_, h2⟩ | h1
      · exact (noC_someC o 2 5 _ _ (by omega) h2 (h.shut (Or.inr hl))).elim
      · exact h1
  | mainReadE tv hm =>
    unfold mainOK at hmo ⊢
    rw [hm] at hmo
    obtain ⟨⟨L, hl, hc⟩, ht⟩ := hmo
    refine ⟨L, hl, ht, ?_⟩
    rcases h.err with ⟨h1, h2⟩ | h1 | ⟨L2, h1, h2, h3, _⟩
    · rcases hc with hc1 | hc1 | hc1
      · rw [hc1] at hl
        exact (noC_someC o 3 5 _ _ (by omega) h2 (h.shut (Or.inr hl))).elim
      · exact (noC_someC o 3 3 _ _ (by omega) h2 hc1).elim
      · rw [hc1] at h1
        exact Option.noConfusion h1
    · exact Or.inl h1
    · have := closed_inj s L L2 hl h1
      rw [this]
      exact Or.inr ⟨h2, h3⟩
  | _ => exact mainOK_pres o s _ rfl hrel hlis (Or.inl rfl) hmo

/-- Every transition keeps the invariants. -/
theorem Inv_trans (o : OauthTokenExchanger) (s s2 : ServerState) (evs : List Event)
    (h : Inv o s) (tr : Trans o s evs s2) : Inv o s2 :=
  ⟨Inv_shut o s s2 evs h tr, Inv_tok o s s2 evs h tr, Inv_err o s s2 evs h tr,
    Inv_main o s s2 evs h tr⟩

theorem Inv_initial (o : OauthTokenExchanger) (w : World) : Inv o (initial o w).1 := by
  refine ⟨?_, Or.inl ⟨rfl, ?_⟩, Or.inl ⟨rfl, ?_⟩, trivial⟩
  · intro h
    rcases h with h | h
    · exact absurd h (by simp [initial])
    · exact absurd h (by simp [initial])
  · intro x hx
    simp [initial] at hx
  · intro x hx
    simp [initial] at hx

theorem Inv_runSteps (o : OauthTokenExchanger) (steps : List Step)
    (sl : ServerState × List Event) (h : Inv o sl.1) :
    Inv o (runSteps o (muxOf o) steps sl).1 := by
  induction steps generalizing sl with
  | nil => exact h
  | cons st rest ih =>
    simp only [runSteps, List.foldl_cons]
    exact ih _ (Inv_trans o sl.1 _ _ h (step_trans o sl.1 st))

/-- The invariants hold at the end of every run. -/
theorem Inv_final (o : OauthTokenExchanger) (w : World) : Inv o (TokenExchangeRun o w).1 :=
  Inv_runSteps o _ _ (Inv_runSteps o _ _ (Inv_initial o w))

theorem Inv_atSchedule (o : OauthTokenExchanger) (w : World) : Inv o (atSchedule o w).1 :=
  Inv_runSteps o _ _ (Inv_initial o w)

/-! ### The log and the goroutines -/

theorem responsesTo_append (r : Request) (l1 l2 : List Event) :
    responsesTo r (l1 ++ l2) = responsesTo r l1 ++ responsesTo r l2 := by
  induction l1 with
  | nil => simp [responsesTo]
  | cons ev rest ih =>
    cases ev <;> simp [responsesTo, ih]
    split <;> simp

theorem count_trans (o : OauthTokenExchanger) (k : Nat) (f : Event → Bool)
    (hk : k = 1 ∨ k = 2 ∨ k = 3 ∨ k = 5)
    (hcall : ∀ r, f (Event.call r) = decide (k = 1))
    (hT : ∀ t, f (Event.storeT t) = decide (k = 2))
    (hE : ∀ e, f (Event.storeE e) = decide (k = 3))
    (hS : f Event.goShutdown = decide (k = 5))
    (hresp : ∀ r x, f (Event.respond r x) = false)
    (hred : ∀ r x, f (Event.redirect r x) = false)
    (hserved : ∀ x, f (Event.served x) = false)
    (hassign : ∀ x, f (Event.assignE x) = false)
    (hret : ∀ t e, f (Event.ret t e) = false)
    (s s2 : ServerState) (evs log : List Event) (tr : Trans o s evs s2)
    (h : log.countP f = s.conns.countP (past o k)) :
    (log ++ evs).countP f = s2.conns.countP (past o k) := by
  rw [List.countP_append, h]
  cases tr with
  | accept r =>
    have : past o k ⟨r, Pc.start⟩ = false := by
      rcases hk with rfl | rfl | rfl | rfl <;> simp [past, Pc.rank]
    simp [List.countP_append, List.countP_cons, this]
  | call i c hi hr hpc =>
    have hc := countP_set (past o k) s.conns i c ⟨c.r, Pc.called⟩ hi
    simp only [past, hr, hpc, Pc.rank, Bool.true_and] at hc
    simp only [List.countP_cons, List.countP_nil, hcall]
    rcases hk with rfl | rfl | rfl | rfl <;> simp at hc ⊢ <;> omega
  | storeT i c hi hr hpc =>
    have hc := countP_set (past o k) s.conns i c ⟨c.r, Pc.storedT⟩ hi
    simp only [past, hr, hpc, Pc.rank, Bool.true_and] at hc
    simp only [List.countP_cons, List.countP_nil, hT]
    rcases hk with rfl | rfl | rfl | rfl <;> simp at hc ⊢ <;> omega
  | storeE i c hi hr hpc =>
    have hc := countP_set (past o k) s.conns i c ⟨c.r, Pc.storedE⟩ hi
    simp only [past, hr, hpc, Pc.rank, Bool.true_and] at hc
    simp only [List.countP_cons, List.countP_nil, hE]
    rcases hk with rfl | rfl | rfl | rfl <;> simp at hc ⊢ <;> omega
  | respond i c hi hr hpc =>
    have hc := countP_set (past o k) s.conns i c ⟨c.r, Pc.responded⟩ hi
    simp only [past, hr, hpc, Pc.rank, Bool.true_and] at hc
    simp only [List.countP_cons, List.countP_nil, hresp]
    rcases hk with rfl | rfl | rfl | rfl <;> simp at hc ⊢ <;> omega
  | goShutdown i c hi hr hpc =>
    have hc := countP_set (past o k) s.conns i c ⟨c.r, Pc.done⟩ hi
    simp only [past, hr, hpc, Pc.rank, Bool.true_and] at hc
    simp only [List.countP_cons, List.countP_nil, hS]
    rcases hk with rfl | rfl | rfl | rfl <;> simp at hc ⊢ <;> omega
  | reply i c resp hi hd hpc =>
    have hu := unrouted_of_reply o c.r resp hd
    have hc := countP_set (past o k) s.conns i c ⟨c.r, Pc.done⟩ hi
    simp only [past, hu, Bool.false_and] at hc
    simp only [List.countP_cons, List.countP_nil, hresp]
    simp at hc ⊢
    omega
  | redirect i c url hi hd hpc =>
    have hu := unrouted_of_redirect o c.r url hd
    have hc := countP_set (past o k) s.conns i c ⟨c.r, Pc.done⟩ hi
    simp only [past, hu, Bool.false_and] at hc
    simp only [List.countP_cons, List.countP_nil, hred]
    simp at hc ⊢
    omega
  | _ => simp [List.countP_cons, hserved, hassign, hret]

theorem replied_routed (o : OauthTokenExchanger) (c : Conn)
    (hr : routed o c.r = true) : replied o c = decide (4 ≤ c.pc.rank) := by
  have hd : dispatch (muxOf o) c.r = Dispatch.callback := by simpa [routed] using hr
  simp [replied, hd]

theorem replyFor_routed (o : OauthTokenExchanger) (r : Request)
    (hr : routed o r = true) : replyFor o r = cbReply o r := by
  have hd : dispatch (muxOf o) r = Dispatch.callback := by simpa [routed] using hr
  simp [replyFor, hd]

theorem nResp_trans (o : OauthTokenExchanger) (s s2 : ServerState)
    (evs log : List Event) (tr : Trans o s evs s2) (q : Request)
    (h : (responsesTo q log).length
      = s.conns.countP (fun c => decide (c.r = q) && replied o c)) :
    (responsesTo q (log ++ evs)).length
      = s2.conns.countP (fun c => decide (c.r = q) && replied o c) := by
  rw [responsesTo_append, List.length_append, h]
  cases tr with
  | accept r =>
    have : replied o ⟨r, Pc.start⟩ = false := by
      unfold replied
      cases dispatch (muxOf o) r <;> simp [Pc.rank]
    simp [List.countP_append, List.countP_cons, this, responsesTo]
  | call i c hi hr hpc =>
    have hc := countP_set (fun c => decide (c.r = q) && replied o c) s.conns i c
      ⟨c.r, Pc.called⟩ hi
    have h1 := replied_routed o ⟨c.r, Pc.called⟩ hr
    have h2 : replied o c = false := by
      rw [replied_routed o c hr, hpc]
      rfl
    simp only [h1, h2, Pc.rank] at hc
    simp [responsesTo] at hc ⊢
    omega
  | storeT i c hi hr hpc =>
    have hc := countP_set (fun c => decide (c.r = q) && replied o c) s.conns i c
      ⟨c.r, Pc.storedT⟩ hi
    have h1 := replied_routed o ⟨c.r, Pc.storedT⟩ hr
    have h2 : replied o c = false := by
      rw [replied_routed o c hr, hpc]
      rfl
    simp only [h1, h2, Pc.rank] at hc
    simp [responsesTo] at hc ⊢
    omega
  | storeE i c hi hr hpc =>
    have hc := countP_set (fun c => decide (c.r = q) && replied o c) s.conns i c
      ⟨c.r, Pc.storedE⟩ hi
    have h1 := replied_routed o ⟨c.r, Pc.storedE⟩ hr
    have h2 : replied o c = false := by
      rw [replied_routed o c hr, hpc]
      rfl
    simp only [h1, h2, Pc.rank] at hc
    simp [responsesTo] at hc ⊢
    omega
  | respond i c hi hr hpc =>
    have hc := countP_set (fun c => decide (c.r = q) && replied o c) s.conns i c
      ⟨c.r, Pc.responded⟩ hi
    have h1 := replied_routed o ⟨c.r, Pc.responded⟩ hr
    have h2 : replied o c = false := by
      rw [replied_routed o c hr, hpc]
      rfl
    simp only [h1, h2, Pc.rank] at hc
    by_cases hq : c.r = q
    · simp [responsesTo, hq] at hc ⊢
      omega
    · simp [responsesTo, hq] at hc ⊢
      omega
  | goShutdown i c hi hr hpc =>
    have hc := countP_set (fun c => decide (c.r = q) && replied o c) s.conns i c
      ⟨c.r, Pc.done⟩ hi
    have h1 := replied_routed o ⟨c.r, Pc.done⟩ hr
    have h2 : replied o c = true := by
      rw [replied_routed o c hr, hpc]
      rfl
    simp only [h1, h2, Pc.rank] at hc
    simp [responsesTo] at hc ⊢
    omega
  | reply i c resp hi hd hpc =>
    have hc := countP_set (fun c => decide (c.r = q) && replied o c) s.conns i c
      ⟨c.r, Pc.done⟩ hi
    have h1 : replied o ⟨c.r, Pc.done⟩ = true := by simp [replied, hd]
    have h2 : replied o c = false := by simp [replied, hd, hpc]
    simp only [h1, h2] at hc
    by_cases hq : c.r = q
    · simp [responsesTo, hq] at hc ⊢
      omega
    · simp [responsesTo, hq] at hc ⊢
      omega
  | redirect i c url hi hd hpc =>
    have hc := countP_set (fun c => decide (c.r = q) && replied o c) s.conns i c
      ⟨c.r, Pc.done⟩ hi
    have h1 : replied o ⟨c.r, Pc.done⟩ = false := by simp [replied, hd]
    have h2 : replied o c = false := by simp [replied, hd]
    simp only [h1, h2] at hc
    simp [responsesTo] at hc ⊢
    omega
  | _ => simp [responsesTo]

theorem resp_trans (o : OauthTokenExchanger) (s s2 : ServerState)
    (evs log : List Event) (tr : Trans o s evs s2) (q : Request)
    (h : ∀ x ∈ responsesTo q log, x = replyFor o q) :
    ∀ x ∈ responsesTo q (log ++ evs), x = replyFor o q := by
  intro x hx
  rw [responsesTo_append, List.mem_append] at hx
  rcases hx with hx | hx
  · exact h x hx
  · cases tr with
    | respond i c hi hr hpc =>
      by_cases hq : c.r = q
      · simp [responsesTo, hq] at hx
        rw [hx, ← hq, replyFor_routed o c.r hr]
      · simp [responsesTo, hq] at hx
    | reply i c resp hi hd hpc =>
      by_cases hq : c.r = q
      · simp [responsesTo, hq] at hx
        rw [hx, ← hq]
        simp [replyFor, hd]
      · simp [responsesTo, hq] at hx
    | _ => simp [responsesTo] at hx

theorem returns_append (l1 l2 : List Event) :
    returns (l1 ++ l2) = returns l1 + returns l2 := by
  simp [returns, List.countP_append]

theorem nRet_trans (o : OauthTokenExchanger) (s s2 : ServerState)
    (evs log : List Event) (tr : Trans o s evs s2)
    (h : returns log = (match s.main with | MainPc.finished _ _ => 1 | _ => 0)) :
    returns (log ++ evs) = (match s2.main with | MainPc.finished _ _ => 1 | _ => 0) := by
  rw [returns_append]
  cases tr with
  | mainServed L hm hl =>
    rw [hm] at h
    simp [returns, List.countP_cons] at h ⊢
    exact h
  | mainToAssign L hm he hL =>
    rw [hm] at h
    simp [returns] at h ⊢
    exact h
  | mainSkip L hm hc =>
    rw [hm] at h
    simp [returns] at h ⊢
    exact h
  | mainAssign L hm =>
    rw [hm] at h
    simp [returns, List.countP_cons] at h ⊢
    exact h
  | mainReadT hm =>
    rw [hm] at h
    simp [returns] at h ⊢
    exact h
  | mainReadE tv hm =>
    rw [hm] at h
    simp [returns, List.countP_cons] at h ⊢
    exact h
  | _ =>
    simp only [returns, List.countP_cons, List.countP_nil] at h ⊢
    simpa using h

theorem someC_countP (o : OauthTokenExchanger) (j k : Nat) (Q : Request → Prop)
    (l : List Conn) (h : j ≤ k) (hs : someC o k Q l) : 1 ≤ l.countP (past o j) := by
  obtain ⟨x, hx, hp, _⟩ := hs
  exact List.countP_pos_iff.mpr ⟨x, hx, past_le o j k x h hp⟩

theorem order_pres (o : OauthTokenExchanger) (s s2 : ServerState) (evs log : List Event)
    (hI : mainOK o s) (hm : s2.main = s.main)
    (hlis : ∀ L, s.listener = Listener.closed L → s2.listener = Listener.closed L)
    (h : ∀ tv ev, s.main = MainPc.finished tv ev →
      ∃ pre post, log = pre ++ Event.ret tv ev :: post ∧ returns pre = 0
        ∧ (s.listener = Listener.closed GoError.ErrServerClosed →
            1 ≤ writesT pre ∧ 1 ≤ writesE pre)) :
    ∀ tv ev, s2.main = MainPc.finished tv ev →
      ∃ pre post, log ++ evs = pre ++ Event.ret tv ev :: post ∧ returns pre = 0
        ∧ (s2.listener = Listener.closed GoError.ErrServerClosed →
            1 ≤ writesT pre ∧ 1 ≤ writesE pre) := by
  intro tv ev hfin
  rw [hm] at hfin
  obtain ⟨pre, post, hlog, hret, hw⟩ := h tv ev hfin
  refine ⟨pre, post ++ evs, by rw [hlog]; simp, hret, ?_⟩
  intro hl2
  apply hw
  unfold mainOK at hI
  rw [hfin] at hI
  obtain ⟨L, hl, _⟩ := hI
  have h3 := hlis L hl
  rw [hl2] at h3
  injection h3 with h4
  rw [hl, h4]

theorem order_trans (o : OauthTokenExchanger) (s s2 : ServerState)
    (evs log : List Event) (hI : Inv o s) (tr : Trans o s evs s2)
    (hT : writesT log = s.conns.countP (past o 2))
    (hE : writesE log = s.conns.countP (past o 3))
    (hR : returns log = (match s.main with | MainPc.finished _ _ => 1 | _ => 0))
    (h : ∀ tv ev, s.main = MainPc.finished tv ev →
      ∃ pre post, log = pre ++ Event.ret tv ev :: post ∧ returns pre = 0
        ∧ (s.listener = Listener.closed GoError.ErrServerClosed →
            1 ≤ writesT pre ∧ 1 ≤ writesE pre)) :
    ∀ tv ev, s2.main = MainPc.finished tv ev →
      ∃ pre post, log ++ evs = pre ++ Event.ret tv ev :: post ∧ returns pre = 0
        ∧ (s2.listener = Listener.closed GoError.ErrServerClosed →
            1 ≤ writesT pre ∧ 1 ≤ writesE pre) := by
  have hlis := trans_listener o s s2 evs tr
  cases tr with
  | mainServed L hm hl =>
    intro tv ev hfin
    exact MainPc.noConfusion hfin
  | mainToAssign L hm he hL =>
    intro tv ev hfin
    exact MainPc.noConfusion hfin
  | mainSkip L hm hc =>
    intro tv ev hfin
    exact MainPc.noConfusion hfin
  | mainAssign L hm =>
    intro tv ev hfin
    exact MainPc.noConfusion hfin
  | mainReadT hm =>
    intro tv ev hfin
    exact MainPc.noConfusion hfin
  | mainReadE tv0 hm =>
    intro tv ev hfin
    injection hfin with h1 h2
    subst h1
    subst h2
    rw [hm] at hR
    refine ⟨log, [], rfl, hR, ?_⟩
    intro hl
    have hs := hI.shut (Or.inr hl)
    rw [hT, hE]
    exact ⟨someC_countP o 2 5 _ _ (by omega) hs, someC_countP o 3 5 _ _ (by omega) hs⟩
  | _ => exact order_pres o s _ _ log hI.main rfl hlis h

/-- Every transition keeps the agreement of the log with the goroutines. -/
theorem LogInv_trans (o : OauthTokenExchanger) (s s2 : ServerState)
    (evs log : List Event) (hI : Inv o s) (h : LogInv o s log) (tr : Trans o s evs s2) :
    LogInv o s2 (log ++ evs) where
  nCall := count_trans o 1 _ (by omega) (by simp) (by simp) (by simp) (by simp) (by simp)
    (by simp) (by simp) (by simp) (by simp) s s2 evs log tr h.nCall
  nT := count_trans o 2 _ (by omega) (by simp) (by simp) (by simp) (by simp) (by simp)
    (by simp) (by simp) (by simp) (by simp) s s2 evs log tr h.nT
  nE := count_trans o 3 _ (by omega) (by simp) (by simp) (by simp) (by simp) (by simp)
    (by simp) (by simp) (by simp) (by simp) s s2 evs log tr h.nE
  nShut := count_trans o 5 _ (by omega) (by simp) (by simp) (by simp) (by simp) (by simp)
    (by simp) (by simp) (by simp) (by simp) s s2 evs log tr h.nShut
  nResp := fun q => nResp_trans o s s2 evs log tr q (h.nResp q)
  resp := fun q => resp_trans o s s2 evs log tr q (h.resp q)
  nRet := nRet_trans o s s2 evs log tr h.nRet
  order := order_trans o s s2 evs log hI tr h.nT h.nE h.nRet h.order

theorem LogInv_initial (o : OauthTokenExchanger) (w : World) :
    LogInv o (initial o w).1 (initial o w).2 where
  nCall := by simp [initial, handlerCalls, List.countP_cons]
  nT := by simp [initial, writesT, List.countP_cons]
  nE := by simp [initial, writesE, List.countP_cons]
  nShut := by simp [initial, shutdowns, List.countP_cons]
  nResp := by intro q; simp [initial, responsesTo]
  resp := by intro q x hx; simp [initial, responsesTo] at hx
  nRet := by simp [initial, returns, List.countP_cons]
  order := by intro tv ev h; simp [initial] at h

theorem LogInv_runSteps (o : OauthTokenExchanger) (steps : List Step)
    (sl : ServerState × List Event) (hI : Inv o sl.1) (h : LogInv o sl.1 sl.2) :
    LogInv o (runSteps o (muxOf o) steps sl).1 (runSteps o (muxOf o) steps sl).2 := by
  induction steps generalizing sl with
  | nil => exact h
  | cons st rest ih =>
    simp only [runSteps, List.foldl_cons]
    exact ih _ (Inv_trans o sl.1 _ _ hI (step_trans o sl.1 st))
      (LogInv_trans o sl.1 _ _ sl.2 hI h (step_trans o sl.1 st))

/-- The log agrees with the goroutines at the end of every run. -/
theorem LogInv_final (o : OauthTokenExchanger) (w : World) :
    LogInv o (TokenExchangeRun o w).1 (trace o w) :=
  LogInv_runSteps o _ _ (Inv_atSchedule o w)
    (LogInv_runSteps o _ _ (Inv_initial o w) (LogInv_initial o w))

/-! ### The caller -/

theorem mainStep_conns (s : ServerState) : (mainStep s).1.conns = s.conns := by
  unfold mainStep
  cases s.main <;> simp only []
  · cases ListenAndServe s <;> rfl
  · split <;> rfl

theorem mainStep_listener (s : ServerState) : (mainStep s).1.listener = s.listener := by
  unfold mainStep
  cases s.main <;> simp only []
  · cases ListenAndServe s <;> rfl
  · split <;> rfl

theorem main5_conns (o : OauthTokenExchanger) (sl : ServerState × List Event) :
    (runSteps o (muxOf o) [Step.main, Step.main, Step.main, Step.main, Step.main] sl).1.conns
      = sl.1.conns := by
  simp only [runSteps, List.foldl_cons, List.foldl_nil, exec, step, mainStep_conns]

theorem main5_listener (o : OauthTokenExchanger) (sl : ServerState × List Event) :
    (runSteps o (muxOf o) [Step.main, Step.main, Step.main, Step.main, Step.main]
      sl).1.listener = sl.1.listener := by
  simp only [runSteps, List.foldl_cons, List.foldl_nil, exec, step, mainStep_listener]

/-- From the return of `ListenAndServe` the caller returns within five steps
when no other goroutine takes a step: it returns the shared token and the
error of lines 84-86. -/
theorem main5_serving (o : OauthTokenExchanger) (sl : ServerState × List Event)
    (L : GoError) (hm : sl.1.main = MainPc.serving)
    (hl : sl.1.listener = Listener.closed L) :
    (runSteps o (muxOf o) [Step.main, Step.main, Step.main, Step.main, Step.main] sl).1.main
      = MainPc.finished sl.1.t (finalErr sl.1.e L) := by
  obtain ⟨⟨t, e, conns, pending, listener, main⟩, log⟩ := sl
  simp only at hm hl
  subst hm
  subst hl
  by_cases hc : e = none ∧ L ≠ GoError.ErrServerClosed
  · simp [runSteps, exec, step, mainStep, ListenAndServe, hc, finalErr]
  · simp only [runSteps, List.foldl_cons, List.foldl_nil, exec, step, mainStep,
      ListenAndServe, if_neg hc, finalErr]

/-- Once the listener is closed the caller returns within five steps. -/
theorem main5_finished (o : OauthTokenExchanger) (sl : ServerState × List Event)
    (L : GoError) (hl : sl.1.listener = Listener.closed L) :
    ∃ tv ev, (runSteps o (muxOf o)
      [Step.main, Step.main, Step.main, Step.main, Step.main] sl).1.main
        = MainPc.finished tv ev := by
  obtain ⟨⟨t, e, conns, pending, listener, main⟩, log⟩ := sl
  simp only at hl
  subst hl
  cases main with
  | serving =>
    exact ⟨_, _, main5_serving o _ L rfl rfl⟩
  | check L2 =>
    by_cases hc : e = none ∧ L2 ≠ GoError.ErrServerClosed
    · simp [runSteps, exec, step, mainStep, hc]
    · simp [runSteps, exec, step, mainStep, if_neg hc]
  | assign L2 => simp [runSteps, exec, step, mainStep]
  | readT => simp [runSteps, exec, step, mainStep]
  | readE tv => simp [runSteps, exec, step, mainStep]
  | finished tv ev => simp [runSteps, exec, step, mainStep]

theorem step_main_eq (o : OauthTokenExchanger) (s : ServerState) (st : Step)
    (h : st ≠ Step.main) : (step o (muxOf o) s st).1.main = s.main := by
  cases st with
  | main => exact (h rfl).elim
  | accept r => rfl
  | shutdown =>
    simp only [step]
    split
    · split <;> rfl
    · rfl
  | fail ident text =>
    simp only [step]
    split <;> rfl
  | conn i =>
    simp only [step, ServeHTTP]
    split
    · rfl
    · split
      · unfold cb
        split <;> rfl
      · split <;> rfl
      · split <;> rfl

theorem runSteps_main_eq (o : OauthTokenExchanger) (steps : List Step)
    (sl : ServerState × List Event) (h : Step.main ∉ steps) :
    (runSteps o (muxOf o) steps sl).1.main = sl.1.main := by
  induction steps generalizing sl with
  | nil => rfl
  | cons st rest ih =>
    simp only [runSteps, List.foldl_cons]
    have h1 : st ≠ Step.main := fun hx => h (by simp [hx])
    have h2 : Step.main ∉ rest := fun hx => h (by simp [hx])
    have := ih (exec o (muxOf o) sl st) h2
    simp only [runSteps] at this
    rw [this]
    exact step_main_eq o sl.1 st h1

theorem runSteps_fst (o : OauthTokenExchanger) (steps : List Step) (s : ServerState)
    (l1 l2 : List Event) :
    (runSteps o (muxOf o) steps (s, l1)).1 = (runSteps o (muxOf o) steps (s, l2)).1 := by
  induction steps generalizing s l1 l2 with
  | nil => rfl
  | cons st rest ih =>
    simp only [runSteps, List.foldl_cons, exec]
    exact ih _ _ _

theorem runSteps_snd (o : OauthTokenExchanger) (steps : List Step) (s : ServerState)
    (l : List Event) :
    ∃ rest, (runSteps o (muxOf o) steps (s, l)).2 = l ++ rest := by
  induction steps generalizing s l with
  | nil => exact ⟨[], by simp [runSteps]⟩
  | cons st rest ih =>
    simp only [runSteps, List.foldl_cons, exec]
    obtain ⟨r2, h⟩ := ih (step o (muxOf o) s st).1 (l ++ (step o (muxOf o) s st).2)
    simp only [runSteps] at h
    exact ⟨(step o (muxOf o) s st).2 ++ r2, by rw [h]; simp⟩

/-- The log of a run starts with the opening of the browser, the
registration of the route and the call of `ListenAndServe`. -/
theorem trace_start (o : OauthTokenExchanger) (w : World) :
    ∃ rest, trace o w =
      Event.openURL o.AuthServerRequestURL w.openURL :: Event.handleFunc (routePattern o)
        :: Event.listen (":" ++ toString o.ListenerPort) :: rest := by
  unfold trace TokenExchangeRun atSchedule
  obtain ⟨r1, h1⟩ := runSteps_snd o w.schedule (initial o w).1 (initial o w).2
  obtain ⟨r2, h2⟩ := runSteps_snd o [Step.main, Step.main, Step.main, Step.main, Step.main]
    (runSteps o (muxOf o) w.schedule (initial o w)).1
    (runSteps o (muxOf o) w.schedule (initial o w)).2
  refine ⟨r1 ++ r2, ?_⟩
  have e1 : (initial o w) = ((initial o w).1, (initial o w).2) := rfl
  rw [h2, e1, h1]
  simp [initial]

theorem served_listener (o : OauthTokenExchanger) (w : World) (L : GoError)
    (h : served o w = some L) : (TokenExchangeRun o w).1.listener = Listener.closed L := by
  unfold served ListenAndServe at h
  cases hl : (TokenExchangeRun o w).1.listener with
  | listening => simp [hl] at h
  | closed err =>
    simp [hl] at h
    rw [h]

theorem served_atSchedule (o : OauthTokenExchanger) (w : World) (L : GoError)
    (h : served o w = some L) : (atSchedule o w).1.listener = Listener.closed L := by
  have := served_listener o w L h
  unfold TokenExchangeRun at this
  rw [main5_listener] at this
  exact this

theorem final_conns (o : OauthTokenExchanger) (w : World) :
    (TokenExchangeRun o w).1.conns = (atSchedule o w).1.conns := by
  unfold TokenExchangeRun
  exact main5_conns o _

/-- When `ListenAndServe` returns, `TokenExchange` returns: a token that is
zero or was stored by a callback, and an error that was stored by a
callback or is the error of the listener. -/
theorem returns_when_served (o : OauthTokenExchanger) (w : World) (L : GoError)
    (h : served o w = some L) :
    ∃ tv ev, TokenExchange o w = some (tv, ev)
      ∧ (TokenExchangeRun o w).1.main = MainPc.finished tv ev
      ∧ Tcap o (TokenExchangeRun o w).1 tv ∧ Ecap o (TokenExchangeRun o w).1 ev L := by
  have hl := served_listener o w L h
  obtain ⟨tv, ev, hfin⟩ := main5_finished o (atSchedule o w) L (served_atSchedule o w L h)
  have hfin2 : (TokenExchangeRun o w).1.main = MainPc.finished tv ev := hfin
  have hI := (Inv_final o w).main
  unfold mainOK at hI
  rw [hfin2] at hI
  obtain ⟨L2, hl2, ht, hev⟩ := hI
  have hLL := closed_inj _ L L2 hl hl2
  rw [← hLL] at hev
  refine ⟨tv, ev, ?_, hfin2, ht, hev⟩
  unfold TokenExchange
  rw [hfin2]

/-- In an uninterrupted run `TokenExchange` returns the shared token and the
error of lines 84-86 on the shared error, as they are when `ListenAndServe`
returns. -/
theorem uninterrupted_result (o : OauthTokenExchanger) (w : World) (L : GoError)
    (hu : uninterrupted w) (h : served o w = some L) :
    TokenExchange o w
      = some ((sharedAtSchedule o w).1, finalErr (sharedAtSchedule o w).2 L) := by
  have hm : (atSchedule o w).1.main = MainPc.serving := by
    unfold atSchedule
    rw [runSteps_main_eq o w.schedule (initial o w) hu]
    rfl
  have := main5_serving o (atSchedule o w) L hm (served_atSchedule o w L h)
  unfold TokenExchange TokenExchangeRun
  rw [this]
  rfl

theorem calls_mem (o : OauthTokenExchanger) (w : World) (c : Conn)
    (hc : c ∈ (TokenExchangeRun o w).1.conns) (hp : past o 1 c = true) :
    c.r ∈ calls o w := by
  unfold calls
  exact List.mem_map.mpr ⟨c, List.mem_filter.mpr ⟨hc, hp⟩, rfl⟩

theorem calls_someC (o : OauthTokenExchanger) (w : World) (k : Nat) (Q : Request → Prop)
    (hk : 1 ≤ k) (hs : someC o k Q (TokenExchangeRun o w).1.conns) :
    ∃ r ∈ calls o w, Q r := by
  obtain ⟨c, hc, hp, hq⟩ := hs
  exact ⟨c.r, calls_mem o w c hc (past_le o 1 k c hk hp), hq⟩

theorem calls_routed (o : OauthTokenExchanger) (w : World) (r : Request)
    (h : r ∈ calls o w) : routed o r = true := by
  unfold calls at h
  obtain ⟨c, hc, hr⟩ := List.mem_map.mp h
  have := (List.mem_filter.mp hc).2
  simp only [past, Bool.and_eq_true] at this
  rw [← hr]
  exact this.1

theorem calls_length (o : OauthTokenExchanger) (w : World) :
    (calls o w).length = (TokenExchangeRun o w).1.conns.countP (past o 1) := by
  unfold calls
  rw [List.length_map, List.countP_eq_length_filter]

/-! ### Runs with one handler invocation -/

/-- With one handler invocation and a shut-down listener, `TokenExchange`
returns what the handler returned. -/
theorem single_shutdown (o : OauthTokenExchanger) (w : World) (r : Request)
    (hcalls : calls o w = [r]) (hL : served o w = some GoError.ErrServerClosed) :
    TokenExchange o w = some (o.Handler r) := by
  obtain ⟨tv, ev, hres, _, ht, hev⟩ := returns_when_served o w _ hL
  have hl := served_listener o w _ hL
  obtain ⟨r1, hr1, h1⟩ := calls_someC o w 2 _ (by omega) (ht.2 hl)
  rw [hcalls, List.mem_singleton] at hr1
  rcases hev with h2 | h2
  · obtain ⟨r2, hr2, h3⟩ := calls_someC o w 3 _ (by omega) h2
    rw [hcalls, List.mem_singleton] at hr2
    rw [hres, h1, h3, hr1, hr2]
  · exact (h2.1 rfl).elim

/-- With one handler invocation and a shut-down listener, the reply of the
callback is the one reply written for the request. -/
theorem single_response (o : OauthTokenExchanger) (w : World) (r : Request)
    (hcalls : calls o w = [r]) (hL : served o w = some GoError.ErrServerClosed) :
    responsesTo r (trace o w) = [cbReply o r] := by
  have hlog := LogInv_final o w
  have hl := served_listener o w _ hL
  have hr : routed o r = true := calls_routed o w r (by rw [hcalls]; simp)
  have hall : ∀ x ∈ responsesTo r (trace o w), x = cbReply o r := by
    intro x hx
    rw [hlog.resp r x hx, replyFor_routed o r hr]
  have hlen : (responsesTo r (trace o w)).length = 1 := by
    rw [hlog.nResp r]
    apply Nat.le_antisymm
    · have h1 : (TokenExchangeRun o w).1.conns.countP
          (fun c => decide (c.r = r) && replied o c)
          ≤ (TokenExchangeRun o w).1.conns.countP (past o 1) := by
        apply List.countP_mono_left
        intro c _ hc
        simp only [Bool.and_eq_true, decide_eq_true_eq] at hc
        have hrc : routed o c.r = true := by rw [hc.1]; exact hr
        have h4 := hc.2
        rw [replied_routed o c hrc] at h4
        simp only [past, hrc, Bool.true_and, decide_eq_true_eq] at h4 ⊢
        omega
      rw [← calls_length, hcalls] at h1
      simpa using h1
    · obtain ⟨d, hd, hp, _⟩ := (Inv_final o w).shut (Or.inr hl)
      apply List.countP_pos_iff.mpr
      refine ⟨d, hd, ?_⟩
      have hdr : d.r = r := by
        have := calls_mem o w d hd (past_le o 1 5 d (by omega) hp)
        rw [hcalls] at this
        simpa using this
      have hrd : routed o d.r = true := by rw [hdr]; exact hr
      simp only [past, hrd, Bool.true_and, decide_eq_true_eq] at hp
      simp only [Bool.and_eq_true, decide_eq_true_eq]
      refine ⟨hdr, ?_⟩
      rw [replied_routed o d hrd]
      simp only [decide_eq_true_eq]
      omega
  match hx : responsesTo r (trace o w), hlen, hall with
  | [x], _, hall2 =>
    rw [hx] at hall
    rw [hall x (by simp)]

/-- Without a handler invocation the listener was not shut down, and
`TokenExchange` returns the zero token and the error of the listener. -/
theorem never_invoked (o : OauthTokenExchanger) (w : World) (L : GoError)
    (hcalls : calls o w = []) (hL : served o w = some L) :
    L ≠ GoError.ErrServerClosed ∧ TokenExchange o w = some (Token.zero, some L) := by
  obtain ⟨tv, ev, hres, _, ht, hev⟩ := returns_when_served o w _ hL
  have hl := served_listener o w _ hL
  have hno : ∀ k (Q : Request → Prop), 1 ≤ k →
      ¬ someC o k Q (TokenExchangeRun o w).1.conns := by
    intro k Q hk hs
    obtain ⟨r, hr, _⟩ := calls_someC o w k Q hk hs
    rw [hcalls] at hr
    simp at hr
  have hne : L ≠ GoError.ErrServerClosed := by
    intro hx
    rw [hx] at hl
    exact hno 5 _ (by omega) ((Inv_final o w).shut (Or.inr hl))
  refine ⟨hne, ?_⟩
  rcases ht.1 with h1 | h1
  · rcases hev with h2 | h2
    · exact (hno 3 _ (by omega) h2).elim
    · rw [hres, h1, h2.2]
  · exact (hno 2 _ (by omega) h1).elim

/-- In a quiet run with one handler invocation the shared token and error
are what the handler returned when `ListenAndServe` returns. -/
theorem quiet_shared (o : OauthTokenExchanger) (w : World) (r : Request)
    (hcalls : calls o w = [r]) (hq : quiet o w) :
    sharedAtSchedule o w = o.Handler r := by
  have hI := Inv_atSchedule o w
  have hm : (atSchedule o w).1.main = MainPc.serving := by
    unfold atSchedule
    rw [runSteps_main_eq o w.schedule (initial o w) hq.1]
    rfl
  have hconns := final_conns o w
  -- the goroutine that invoked the handler has completed its stores
  have hex : ∃ c ∈ (TokenExchangeRun o w).1.conns, past o 1 c = true := by
    have : 0 < (TokenExchangeRun o w).1.conns.countP (past o 1) := by
      rw [← calls_length, hcalls]
      simp
    obtain ⟨c, hc, hp⟩ := List.countP_pos_iff.mp this
    exact ⟨c, hc, hp⟩
  obtain ⟨c, hc, hp⟩ := hex
  have hpc := hq.2 c hc
  have hp3 : past o 3 c = true := by
    simp only [past, Bool.and_eq_true, decide_eq_true_eq] at hp ⊢
    refine ⟨hp.1, ?_⟩
    cases hcp : c.pc with
    | start => rw [hcp] at hp; simp [Pc.rank] at hp
    | called => exact (hpc.1 hcp).elim
    | storedT => exact (hpc.2 hcp).elim
    | storedE => simp [Pc.rank]
    | responded => simp [Pc.rank]
    | done => simp [Pc.rank]
  have hreq : ∀ (k : Nat) (Q : Request → Prop), 1 ≤ k →
      someC o k Q (atSchedule o w).1.conns → Q r := by
    intro k Q hk hs
    rw [← hconns] at hs
    obtain ⟨r2, hr2, hq2⟩ := calls_someC o w k Q hk hs
    rw [hcalls, List.mem_singleton] at hr2
    rw [← hr2]
    exact hq2
  have hc2 : c ∈ (atSchedule o w).1.conns := by rw [← hconns]; exact hc
  have ht : (atSchedule o w).1.t = (o.Handler r).1 := by
    rcases hI.tok with ⟨_, h2⟩ | h1
    · have := h2 c hc2
      rw [past_le o 2 3 c (by omega) hp3] at this
      exact Bool.noConfusion this
    · exact hreq 2 _ (by omega) h1
  have he : (atSchedule o w).1.e = (o.Handler r).2 := by
    rcases hI.err with ⟨_, h2⟩ | h1 | ⟨_, _, _, _, h4⟩
    · have := h2 c hc2
      rw [hp3] at this
      exact Bool.noConfusion this
    · exact hreq 3 _ (by omega) h1
    · exact (h4 hm).elim
  unfold sharedAtSchedule
  rw [ht, he]

/-! ### Canonical paths -/

theorem dropWhile_head_false (p : Char → Bool) (l : List Char) (c : Char)
    (h : (l.dropWhile p).head? = some c) : p c = false := by
  induction l with
  | nil => simp at h
  | cons x xs ih =>
    by_cases hx : p x = true
    · rw [List.dropWhile_cons_of_pos hx] at h
      exact ih h
    · rw [List.dropWhile_cons_of_neg hx] at h
      simp at h
      rw [← h]
      simpa using hx

theorem dropWhile_getLast (p : Char → Bool) (l : List Char) (h : l.dropWhile p ≠ []) :
    (l.dropWhile p).getLast? = l.getLast? := by
  induction l with
  | nil => rfl
  | cons x xs ih =>
    by_cases hx : p x = true
    · rw [List.dropWhile_cons_of_pos hx] at h ⊢
      rw [ih h]
      cases xs with
      | nil => simp at h
      | cons y ys => simp [List.getLast?_cons_cons]
    · rw [List.dropWhile_cons_of_neg hx]

theorem dropWhile_decomp (l : List Char) :
    ∃ n, l = List.replicate n '/' ++ l.dropWhile (fun c => ['/'].contains c) := by
  induction l with
  | nil => exact ⟨0, rfl⟩
  | cons x xs ih =>
    by_cases hx : x = '/'
    · obtain ⟨n, hn⟩ := ih
      refine ⟨n + 1, ?_⟩
      subst hx
      rw [List.dropWhile_cons_of_pos (by simp), List.replicate_succ, List.cons_append, ← hn]
    · refine ⟨0, ?_⟩
      rw [List.dropWhile_cons_of_neg (by simpa using hx)]
      rfl

theorem trimRight_decomp (l : List Char) :
    ∃ n, l = trimRightChars l ['/'] ++ List.replicate n '/' := by
  obtain ⟨n, hn⟩ := dropWhile_decomp l.reverse
  refine ⟨n, ?_⟩
  have h := congrArg List.reverse hn
  rw [List.reverse_reverse, List.reverse_append, List.reverse_replicate] at h
  exact h

theorem trimRight_getLast (l : List Char) :
    (trimRightChars l ['/']).getLast? ≠ some '/' := by
  intro h
  unfold trimRightChars at h
  rw [List.getLast?_reverse] at h
  have := dropWhile_head_false _ _ _ h
  simp at this

/-- The characters of `Trim s "/"` neither start nor end with a slash, and
`s` is these characters between two runs of slashes. -/
theorem Trim_slash (s : String) :
    (Trim s "/").data.head? ≠ some '/'
    ∧ (Trim s "/").data.getLast? ≠ some '/'
    ∧ ∃ i j, s.data = List.replicate i '/' ++ (Trim s "/").data ++ List.replicate j '/' := by
  have hd : ("/" : String).data = ['/'] := rfl
  simp only [Trim, hd]
  refine ⟨?_, ?_, ?_⟩
  · intro h
    have := dropWhile_head_false _ _ _ h
    simp at this
  · intro h
    by_cases hne : trimLeftChars (trimRightChars s.data ['/']) ['/'] = []
    · rw [hne] at h
      simp at h
    · unfold trimLeftChars at h hne
      rw [dropWhile_getLast _ _ hne] at h
      exact trimRight_getLast _ h
  · obtain ⟨j, hj⟩ := trimRight_decomp s.data
    obtain ⟨i, hi⟩ := dropWhile_decomp (trimRightChars s.data ['/'])
    refine ⟨i, j, ?_⟩
    unfold trimLeftChars
    rw [← hi, ← hj]

theorem routePattern_data (o : OauthTokenExchanger) :
    (routePattern o).data = '/' :: (Trim o.ListenerPath "/").data := by
  simp [routePattern]

/-- Normalising a registered pattern again gives the same pattern. -/
theorem routePattern_idem (o : OauthTokenExchanger) (u : String)
    (h : AuthCodeRequestHandler) (port : Int) :
    routePattern ⟨u, h, port, routePattern o⟩ = routePattern o := by
  obtain ⟨h1, h2, _⟩ := Trim_slash o.ListenerPath
  have hd : ("/" : String).data = ['/'] := rfl
  apply String.ext
  rw [routePattern_data, routePattern_data]
  congr 1
  simp only [Trim, hd, routePattern_data]
  show trimLeftChars (trimRightChars ('/' :: (Trim o.ListenerPath "/").data) ['/']) ['/']
    = (Trim o.ListenerPath "/").data
  cases ht : (Trim o.ListenerPath "/").data with
  | nil => rfl
  | cons x xs =>
    rw [ht] at h1 h2
    have hx : x ≠ '/' := fun heq => h1 (by simp [heq])
    have hlast : ('/' :: x :: xs).getLast? ≠ some '/' := by
      rw [List.getLast?_cons_cons]
      exact h2
    have hr : trimRightChars ('/' :: x :: xs) ['/'] = '/' :: x :: xs := by
      unfold trimRightChars
      cases hrev : ('/' :: x :: xs).reverse with
      | nil => simp at hrev
      | cons y ys =>
        have hy : ('/' :: x :: xs).getLast? = some y := by
          rw [← List.head?_reverse, hrev]
          rfl
        have hne : y ≠ '/' := fun heq => hlast (by rw [hy, heq])
        rw [List.dropWhile_cons_of_neg (by simpa using hne), ← hrev, List.reverse_reverse]
    rw [hr]
    unfold trimLeftChars
    rw [List.dropWhile_cons_of_pos (by simp), List.dropWhile_cons_of_neg (by simpa using hx)]

/-! ### Routing -/

/-- C6. Default configuration: `NewOauthTokenExchanger(u, h)` keeps `u` and
`h` and has port 3000 and path "/callback"; `GetDefaultCallbackURL()` is
exactly "http://localhost:3000/callback", which is "http://localhost:"
followed by the default port and the default path. -/
theorem C6_default_configuration (u : String) (h : AuthCodeRequestHandler) :
    (NewOauthTokenExchanger u h).AuthServerRequestURL = u
    ∧ (NewOauthTokenExchanger u h).Handler = h
    ∧ (NewOauthTokenExchanger u h).ListenerPort = 3000
    ∧ (NewOauthTokenExchanger u h).ListenerPath = "/callback"
    ∧ GetDefaultCallbackURL = "http://localhost:3000/callback"
    ∧ GetDefaultCallbackURL =
        "http://localhost:" ++ toString (NewOauthTokenExchanger u h).ListenerPort
          ++ (NewOauthTokenExchanger u h).ListenerPath := by
  exact ⟨rfl, rfl, rfl, rfl, by decide, rfl⟩

/-- C1. Success path: when the handler is invoked on exactly one request `r`
of the run (the one request served at the registered path), it returns
`(T, nil)` on it and `ListenAndServe` returns `http.ErrServerClosed`, the
reply written for `r` is the single reply with status 200 and body "Token
retrieved successfully! Please close the browser window", and
`TokenExchange` returns `(T, nil)`. -/
theorem C1_success_path (o : OauthTokenExchanger) (w : World) (r : Request) (T : Token)
    (hcalls : calls o w = [r]) (hT : o.Handler r = (T, none))
    (hL : served o w = some GoError.ErrServerClosed) :
    responsesTo r (trace o w) =
        [⟨200, "Token retrieved successfully! Please close the browser window"⟩]
    ∧ TokenExchange o w = some (T, none) := by
  constructor
  · rw [single_response o w r hcalls hL]
    simp [cbReply, hT]
  · rw [single_shutdown o w r hcalls hL, hT]

/-- C1 on the run `callbackWorld` of the always-succeeding default exchanger. -/
theorem C1_success_path_witness :
    responsesTo callbackRequest (trace okExchanger callbackWorld) =
        [⟨200, "Token retrieved successfully! Please close the browser window"⟩]
    ∧ TokenExchange okExchanger callbackWorld = some (sampleToken, none) :=
  C1_success_path okExchanger callbackWorld callbackRequest sampleToken
    (by decide) (by decide) (by decide)

/-- C2 as stated fails: the handler of `leakyExchanger` returns
`(sampleToken, sampleError)` on the one request served at the registered
path, the listener is shut down, and `TokenExchange` returns `sampleToken`,
not the zero token. -/
theorem C2_counterexample :
    calls leakyExchanger callbackWorld = [callbackRequest]
    ∧ leakyExchanger.Handler callbackRequest = (sampleToken, some sampleError)
    ∧ served leakyExchanger callbackWorld = some GoError.ErrServerClosed
    ∧ TokenExchange leakyExchanger callbackWorld = some (sampleToken, some sampleError)
    ∧ TokenExchange leakyExchanger callbackWorld ≠ some (Token.zero, some sampleError) := by
  decide

/-- C2, amended. Failure path: when the handler is invoked on exactly one
request `r` of the run (the one request served at the registered path), it
returns `(T, E)` on it with `E` non-nil, and `ListenAndServe` returns
`http.ErrServerClosed`, the reply written for `r` is the single reply with
status 500 and body "Error retrieving token: " followed by the text of `E`
and a newline, so the body contains the text of `E`; and `TokenExchange`
returns the token `T` the handler returned alongside `E` together with the
error `E`. -/
theorem C2_failure_path (o : OauthTokenExchanger) (w : World) (r : Request) (T : Token)
    (E : GoError) (hcalls : calls o w = [r]) (hE : o.Handler r = (T, some E))
    (hL : served o w = some GoError.ErrServerClosed) :
    responsesTo r (trace o w) = [⟨500, "Error retrieving token: " ++ E.Error ++ "\n"⟩]
    ∧ containsText ("Error retrieving token: " ++ E.Error ++ "\n") E.Error
    ∧ TokenExchange o w = some (T, some E) := by
  refine ⟨?_, ⟨"Error retrieving token: ", "\n", rfl⟩, ?_⟩
  · rw [single_response o w r hcalls hL]
    simp [cbReply, hE, httpError]
  · rw [single_shutdown o w r hcalls hL, hE]

/-- C2, amended, on the run `callbackWorld` of `leakyExchanger`. -/
theorem C2_failure_path_witness :
    responsesTo callbackRequest (trace leakyExchanger callbackWorld) =
        [⟨500, "Error retrieving token: " ++ sampleError.Error ++ "\n"⟩]
    ∧ containsText ("Error retrieving token: " ++ sampleError.Error ++ "\n")
        sampleError.Error
    ∧ TokenExchange leakyExchanger callbackWorld = some (sampleToken, some sampleError) :=
  C2_failure_path leakyExchanger callbackWorld callbackRequest sampleToken sampleError
    (by decide) (by decide) (by decide)

/-- C3 as stated fails: in the run `raceWorld` the handler of
`leakyExchanger` is invoked on the one request served at the registered
path and returns the error `sampleError`, the listener fails with
`acceptError` before the callback stores the outcome, and `TokenExchange`
returns the listener error, not the handler error. -/
theorem C3_counterexample :
    calls leakyExchanger raceWorld = [callbackRequest]
    ∧ (leakyExchanger.Handler callbackRequest).2 = some sampleError
    ∧ served leakyExchanger raceWorld = some acceptError
    ∧ TokenExchange leakyExchanger raceWorld = some (Token.zero, some acceptError)
    ∧ (TokenExchange leakyExchanger raceWorld).map Prod.snd ≠ some (some sampleError) := by
  decide

/-- C3, amended. Error precedence: let `ListenAndServe` return `L`,
`http.ErrServerClosed` or any other error.  In a run in which no other
goroutine takes a step between the return of `ListenAndServe` and the return
of `TokenExchange`, every non-nil error `E` that the shared error variable
holds when `ListenAndServe` returns is the error of a handler invocation and
is the error `TokenExchange` returns, whatever `L` is; and when the shared
error variable is nil at that time and `L` is `http.ErrServerClosed`, the
returned error is nil.  When the handler is invoked on exactly one request
of the run and `L` is `http.ErrServerClosed`, the returned error is the
error the handler returned, nil or not, in every schedule. -/
theorem C3_error_precedence (o : OauthTokenExchanger) (w : World) (L : GoError)
    (hL : served o w = some L) :
    (uninterrupted w → ∀ E : GoError, (sharedAtSchedule o w).2 = some E →
        (∃ r ∈ calls o w, (o.Handler r).2 = some E)
        ∧ (TokenExchange o w).map Prod.snd = some (some E))
    ∧ (uninterrupted w → (sharedAtSchedule o w).2 = none → L = GoError.ErrServerClosed →
        (TokenExchange o w).map Prod.snd = some none)
    ∧ (∀ r, calls o w = [r] → L = GoError.ErrServerClosed →
        (TokenExchange o w).map Prod.snd = some (o.Handler r).2) := by
  refine ⟨?_, ?_, ?_⟩
  · intro hu E hE
    constructor
    · have hm : (atSchedule o w).1.main = MainPc.serving := by
        unfold atSchedule
        rw [runSteps_main_eq o w.schedule (initial o w) hu]
        rfl
      have he : (atSchedule o w).1.e = some E := hE
      rcases (Inv_atSchedule o w).err with ⟨h1, _⟩ | h1 | ⟨_, _, _, _, h4⟩
      · rw [h1] at he
        exact Option.noConfusion he
      · rw [← final_conns o w] at h1
        obtain ⟨r, hr, hq⟩ := calls_someC o w 3 _ (by omega) h1
        exact ⟨r, hr, by rw [← hq, he]⟩
      · exact (h4 hm).elim
    · rw [uninterrupted_result o w L hu hL, hE]
      simp [finalErr]
  · intro hu hE hErr
    rw [uninterrupted_result o w L hu hL, hE, hErr]
    simp [finalErr]
  · intro r hcalls hErr
    rw [hErr] at hL
    rw [single_shutdown o w r hcalls hL]
    rfl

/-- C3, amended, on a callback that has stored its error when the listener
fails, and on one handler invocation followed by the shutdown. -/
theorem C3_error_precedence_witness :
    (TokenExchange leakyExchanger crashWorld).map Prod.snd = some (some sampleError)
    ∧ (TokenExchange okExchanger callbackWorld).map Prod.snd
        = some (okExchanger.Handler callbackRequest).2 :=
  ⟨((C3_error_precedence leakyExchanger crashWorld acceptError (by decide)).1
      (by decide) sampleError (by decide)).2,
    (C3_error_precedence okExchanger callbackWorld GoError.ErrServerClosed (by decide)).2.2
      callbackRequest (by decide) rfl⟩

/-- C4. Listener failure: when the handler is never invoked in the run and
`ListenAndServe` returns an error `L` other than `http.ErrServerClosed`,
`TokenExchange` returns the zero token and the error `L`. -/
theorem C4_listener_failure (o : OauthTokenExchanger) (w : World) (L : GoError)
    (hnever : calls o w = []) (hL : served o w = some L)
    (_hne : L ≠ GoError.ErrServerClosed) :
    handlerCalls (trace o w) = 0 ∧ TokenExchange o w = some (Token.zero, some L) := by
  constructor
  · rw [(LogInv_final o w).nCall, ← calls_length, hnever]
    rfl
  · exact (never_invoked o w L hnever hL).2

/-- C4 on the run in which the port cannot be bound. -/
theorem C4_listener_failure_witness :
    handlerCalls (trace okExchanger bindFailureWorld) = 0
    ∧ TokenExchange okExchanger bindFailureWorld = some (Token.zero, some bindError) :=
  C4_listener_failure okExchanger bindFailureWorld bindError (by decide) (by decide)
    (by decide)

/-- C5 as stated fails: in the run `crashWorld` the handler succeeds with
`sampleToken`, the callback stores the outcome, and `ListenAndServe` then
returns `acceptError`; `TokenExchange` returns `(sampleToken, acceptError)`,
and none of the three listed cases holds. -/
theorem C5_counterexample :
    handlerOutcome okExchanger crashWorld = some (sampleToken, none)
    ∧ served okExchanger crashWorld = some acceptError
    ∧ TokenExchange okExchanger crashWorld = some (sampleToken, some acceptError)
    ∧ ∀ k, ¬ specGuarantee k (handlerOutcome okExchanger crashWorld) acceptError
        (sampleToken, some acceptError) := by
  have h1 : handlerOutcome okExchanger crashWorld = some (sampleToken, none) := by decide
  refine ⟨h1, by decide, by decide, ?_⟩
  intro k
  rw [h1]
  cases k <;> simp [specGuarantee, acceptError]

/-- C5, amended. Return guarantee: take a run in which the handler is invoked
at most once and `ListenAndServe` returns `L`, and in which either `L` is
`http.ErrServerClosed` or the run is quiet (no other goroutine takes a step
between the return of `ListenAndServe` and the return of `TokenExchange`,
and no callback is between its handler call and the end of its two stores
at that time).  Then `TokenExchange` returns, and exactly one of the
following holds: the handler returned `(T, E)` with `E` non-nil and
`(T, E)` is returned; the handler returned `(T, nil)`, `L` is
`http.ErrServerClosed` and `(T, nil)` is returned; the handler returned
`(T, nil)`, `L` is another error and `(T, L)` is returned; the handler was
never invoked, `L` is not `http.ErrServerClosed` and the zero token is
returned with `L`. -/
theorem C5_return_guarantee (o : OauthTokenExchanger) (w : World) (L : GoError)
    (h1 : (calls o w).length ≤ 1) (hL : served o w = some L)
    (hq : L = GoError.ErrServerClosed ∨ quiet o w) :
    ∃ res, TokenExchange o w = some res
      ∧ ∃! k, returnGuarantee k (handlerOutcome o w) L res := by
  cases hc : calls o w with
  | nil =>
    obtain ⟨hne, hres⟩ := never_invoked o w L hc hL
    refine ⟨_, hres, ReturnCase.listenerError, ?_, ?_⟩
    · simp [returnGuarantee, handlerOutcome, hc, hne]
    · intro k hk
      cases k <;> simp_all [returnGuarantee, handlerOutcome]
  | cons r rest =>
    have hrest : rest = [] := by
      rw [hc] at h1
      simp at h1
      exact h1
    subst hrest
    have hout : handlerOutcome o w = some (o.Handler r) := by simp [handlerOutcome, hc]
    have hres : TokenExchange o w = some ((o.Handler r).1, finalErr (o.Handler r).2 L) := by
      by_cases hErr : L = GoError.ErrServerClosed
      · rw [hErr] at hL
        rw [single_shutdown o w r hc hL, hErr]
        simp [finalErr]
      · have hquiet := hq.resolve_left hErr
        rw [uninterrupted_result o w L hquiet.1 hL, quiet_shared o w r hc hquiet]
    refine ⟨_, hres, ?_⟩
    rw [hout]
    rcases hH : o.Handler r with ⟨T, _ | E⟩
    · by_cases hErr : L = GoError.ErrServerClosed
      · refine ⟨ReturnCase.success, ?_, ?_⟩
        · simp [returnGuarantee, finalErr, hErr]
        · intro k hk
          cases k <;> simp_all [returnGuarantee, finalErr]
      · refine ⟨ReturnCase.successListenerError, ?_, ?_⟩
        · simp [returnGuarantee, finalErr, hErr]
        · intro k hk
          cases k <;> simp_all [returnGuarantee, finalErr]
    · refine ⟨ReturnCase.handlerError, ?_, ?_⟩
      · simp [returnGuarantee, finalErr]
      · intro k hk
        cases k <;> simp_all [returnGuarantee, finalErr]

/-- C5, amended, on the quiet run `crashWorld`. -/
theorem C5_return_guarantee_witness :
    ∃ res, TokenExchange okExchanger crashWorld = some res
      ∧ ∃! k, returnGuarantee k (handlerOutcome okExchanger crashWorld) acceptError res :=
  C5_return_guarantee okExchanger crashWorld acceptError (by decide) (by decide)
    (Or.inr (by decide))

/-- C8. Browser-open failure is not surfaced: for every exchanger and every
schedule, `TokenExchange` returns the same pair whatever `browser.OpenURL`
returned, and after any result of the open, a failure included, the route
is registered and `ListenAndServe` is called. -/
theorem C8_browser_open_not_surfaced (o : OauthTokenExchanger) (a b : Error)
    (schedule : List Step) :
    TokenExchange o ⟨a, schedule⟩ = TokenExchange o ⟨b, schedule⟩
    ∧ ∃ rest, trace o ⟨a, schedule⟩ =
        Event.openURL o.AuthServerRequestURL a :: Event.handleFunc (routePattern o)
          :: Event.listen (":" ++ toString o.ListenerPort) :: rest := by
  constructor
  · have h1 : (atSchedule o ⟨a, schedule⟩).1 = (atSchedule o ⟨b, schedule⟩).1 :=
      runSteps_fst o schedule _ _ _
    have h2 : (TokenExchangeRun o ⟨a, schedule⟩).1 = (TokenExchangeRun o ⟨b, schedule⟩).1 := by
      unfold TokenExchangeRun
      have e1 : atSchedule o ⟨a, schedule⟩
          = ((atSchedule o ⟨a, schedule⟩).1, (atSchedule o ⟨a, schedule⟩).2) := rfl
      have e2 : atSchedule o ⟨b, schedule⟩
          = ((atSchedule o ⟨b, schedule⟩).1, (atSchedule o ⟨b, schedule⟩).2) := rfl
      rw [e1, e2, h1]
      exact runSteps_fst o _ _ _ _
    unfold TokenExchange
    rw [h2]
  · exact trace_start o ⟨a, schedule⟩

/-- C7. Path normalization: for every `ListenerPath` the pattern registered
on the mux is "/" followed by the path with all leading and all trailing
slashes removed (the path is that trimmed text between two runs of slashes,
and the trimmed text neither starts nor ends with a slash); so the pattern
begins with a slash, its second character, if any, is not a slash, and
normalising the pattern again gives the same pattern; "callback",
"/callback" and "/callback/" all register "/callback". -/
theorem C7_path_normalization (o : OauthTokenExchanger) :
    (∀ w, Event.handleFunc (routePattern o) ∈ trace o w)
    ∧ (muxOf o).patterns = [routePattern o]
    ∧ routePattern o = "/" ++ Trim o.ListenerPath "/"
    ∧ (∃ i j, o.ListenerPath.data =
        List.replicate i '/' ++ (Trim o.ListenerPath "/").data ++ List.replicate j '/')
    ∧ (Trim o.ListenerPath "/").data.head? ≠ some '/'
    ∧ (Trim o.ListenerPath "/").data.getLast? ≠ some '/'
    ∧ (routePattern o).data.head? = some '/'
    ∧ (routePattern o).data.tail.head? ≠ some '/'
    ∧ routePattern ⟨o.AuthServerRequestURL, o.Handler, o.ListenerPort, routePattern o⟩
        = routePattern o
    ∧ routePattern ⟨o.AuthServerRequestURL, o.Handler, o.ListenerPort, "callback"⟩
        = "/callback"
    ∧ routePattern ⟨o.AuthServerRequestURL, o.Handler, o.ListenerPort, "/callback"⟩
        = "/callback"
    ∧ routePattern ⟨o.AuthServerRequestURL, o.Handler, o.ListenerPort, "/callback/"⟩
        = "/callback" := by
  obtain ⟨h1, h2, h3⟩ := Trim_slash o.ListenerPath
  refine ⟨?_, rfl, rfl, h3, h1, h2, ?_, ?_, routePattern_idem o _ _ _, ?_, ?_, ?_⟩
  · intro w
    obtain ⟨rest, h⟩ := trace_start o w
    rw [h]
    simp
  · rw [routePattern_data]
    rfl
  · rw [routePattern_data]
    exact h1
  · show "/" ++ Trim "callback" "/" = "/callback"
    decide
  · show "/" ++ Trim "/callback" "/" = "/callback"
    decide
  · show "/" ++ Trim "/callback/" "/" = "/callback"
    decide

end token
